import Mathlib

/-!
Verification of the Python resource-lifecycle analyzer
(`ultimate_bug_scanner/modules/helpers/resource_lifecycle_py.py`).

The module walks a Python syntax tree, records acquisitions of four kinds
of resources (file handles, sockets, subprocess handles, asyncio tasks),
marks them released when a release idiom is recognized, and reports every
record still unreleased at the end of the traversal.

This file gives a shallow embedding of that module: the static signature
tables, the record/scope data model, the `ast.NodeVisitor` traversal
(`visit_With`, `visit_Assign`, `visit_Call`, `visit_Await`,
`_handle_release`, `_mark_released`, ...) and the reporter, all as
executable Lean functions, followed by theorems about them.
-/

namespace ResourceLifecycle

/-- The four tracked resource kinds (values of the `TARGET_SIGS` dict). -/
inductive RKind where
  | file_handle
  | socket_handle
  | popen_handle
  | asyncio_task
deriving DecidableEq

/-- The string tag of a kind, as used in sort keys and diagnostic lines. -/
def kindStr : RKind → String
  | .file_handle => "file_handle"
  | .socket_handle => "socket_handle"
  | .popen_handle => "popen_handle"
  | .asyncio_task => "asyncio_task"

/-- A canonical call signature: `(module-or-None, symbol)`. -/
abbrev Sig := Option String × String

/-- The `TARGET_SIGS` dict: acquisition signatures and the kind each produces. -/
def TARGET_SIGS : List (Sig × RKind) :=
  [((none, "open"), .file_handle),
   ((some "builtins", "open"), .file_handle),
   ((some "io", "open"), .file_handle),
   ((some "pathlib", "open"), .file_handle),
   ((some "pathlib.Path", "open"), .file_handle),
   ((some "tempfile", "NamedTemporaryFile"), .file_handle),
   ((some "tempfile", "TemporaryFile"), .file_handle),
   ((some "tempfile", "SpooledTemporaryFile"), .file_handle),
   ((some "socket", "socket"), .socket_handle),
   ((some "socket", "create_connection"), .socket_handle),
   ((some "socket", "socketpair"), .socket_handle),
   ((some "subprocess", "Popen"), .popen_handle),
   ((some "asyncio", "create_task"), .asyncio_task)]

/-- `TARGET_SIGS.get(sig)`. -/
def targetKind (s : Sig) : Option RKind :=
  (TARGET_SIGS.find? (fun p => p.1 = s)).map (·.2)

/-- The `RELEASE_METHODS` dict: release-method names per kind. -/
def RELEASE_METHODS : RKind → List String
  | .file_handle => ["close"]
  | .socket_handle => ["close", "shutdown"]
  | .popen_handle => ["wait", "communicate", "terminate", "kill"]
  | .asyncio_task => ["cancel"]

/-- Insertion order of the `RELEASE_METHODS` dict, i.e. the order in which
`_handle_release` iterates `RELEASE_METHODS.items()`. -/
def kindOrder : List RKind :=
  [.file_handle, .socket_handle, .popen_handle, .asyncio_task]

/-- The `TASK_RELEASE_SIGS` set of task-consuming combinator signatures. -/
def TASK_RELEASE_SIGS : List Sig :=
  [(some "asyncio", "gather"), (some "asyncio", "wait"), (some "asyncio", "wait_for")]

/-- `MESSAGE_TEMPLATES[kind].format(name=subject)`. -/
def messageFor : RKind → String → String
  | .file_handle, n => "File handle " ++ n ++ " opened without context manager or close()"
  | .socket_handle, n => "Socket " ++ n ++ " opened without close()"
  | .popen_handle, n => "subprocess handle " ++ n ++ " never waited/terminated"
  | .asyncio_task, n => "asyncio task " ++ n ++ " neither awaited nor cancelled"

/-! ### The syntax-tree fragment the analyzer inspects

Each `call` node carries an identity label `eid` standing for the Python
object identity `id(node)` used by the `safe_calls` / `assigned_calls`
sets, and the `lineno` attribute. -/

mutual
inductive PExpr where
  | name (id : String)
  | attributeE (value : PExpr) (attr : String)
  | call (eid : Nat) (lineno : Nat) (func : PExpr) (args : PExprList) (keywords : PExprList)
  | awaitE (value : PExpr)
  | tuple (elts : PExprList)
  | listE (elts : PExprList)
  | setE (elts : PExprList)
  | starred (value : PExpr)
  | constE
inductive PExprList where
  | nil
  | cons (head : PExpr) (tail : PExprList)
end

mutual
inductive PStmt where
  | functionDef (nm : String) (body : PStmtList)
  | asyncFunctionDef (nm : String) (body : PStmtList)
  | importStmt (names : List (String × Option String))
  | importFrom (module : Option String) (names : List (String × Option String))
  | assign (targets : PExprList) (value : PExpr)
  | exprStmt (value : PExpr)
  | withStmt (items : PExprList) (body : PStmtList)
  | asyncWith (items : PExprList) (body : PStmtList)
  | returnStmt (value : Option PExpr)
inductive PStmtList where
  | nil
  | cons (head : PStmt) (tail : PStmtList)
end

/-! ### The analyzer's mutable data model -/

/-- `ResourceRecord`: one syntactic acquisition site. -/
structure ResourceRecord where
  name : Option String
  kind : RKind
  lineno : Nat
  released : Bool
deriving DecidableEq

/-- `Scope`: per-scope alias table and name-to-record-list table.  Python
stores records by reference; here `by_name` stores indices into the
analyzer's flat `records` list, which models that aliasing exactly.  Both
tables are association lists in which the most recent binding for a key
comes first, matching `dict` lookup after overwrite/update. -/
structure Scope where
  aliases : List (String × (Option String × Option String))
  by_name : List (String × List Nat)
deriving DecidableEq

/-- `sc.aliases.get(n)`. -/
def Scope.aliasGet (sc : Scope) (n : String) : Option (Option String × Option String) :=
  (sc.aliases.find? (fun p => p.1 = n)).map (·.2)

/-- `sc.by_name.get(n)`. -/
def Scope.byNameGet (sc : Scope) (n : String) : Option (List Nat) :=
  (sc.by_name.find? (fun p => p.1 = n)).map (·.2)

/-- `sc.aliases[n] = v`. -/
def Scope.bindAlias (sc : Scope) (n : String) (v : Option String × Option String) : Scope :=
  { sc with aliases := (n, v) :: sc.aliases }

/-- `sc.by_name.setdefault(n, []).append(idx)`. -/
def Scope.appendRecord (sc : Scope) (n : String) (idx : Nat) : Scope :=
  { sc with by_name := (n, ((sc.byNameGet n).getD []) ++ [idx]) :: sc.by_name }

/-- The `Analyzer` visitor state.  `scope_stack` keeps the innermost scope
at the head (Python appends at the end and iterates `reversed(...)`). -/
structure Analyzer where
  records : List ResourceRecord
  safe_calls : List Nat
  assigned_calls : List Nat
  scope_stack : List Scope
deriving DecidableEq

/-- Python truthiness of an `Optional[str]`. -/
def optTruthy : Option String → Bool
  | some s => s ≠ ""
  | none => false

/-- `_lookup_alias`: search scopes innermost outward; default `(None, None)`. -/
def lookup_alias : List Scope → String → Option String × Option String
  | [], _ => (none, none)
  | sc :: rest, n =>
    match sc.aliasGet n with
    | some v => v
    | none => lookup_alias rest n

/-- `_dotted_name`. -/
def dotted_name : PExpr → Option String
  | .name i => some i
  | .attributeE v a =>
    match dotted_name v with
    | some b => some (b ++ "." ++ a)
    | none => none
  | _ => none

/-- `_call_signature` (and `_call_signature_from_expr`, via the catch-all). -/
def call_signature (scopes : List Scope) : PExpr → Option Sig
  | .call _ _ func _ _ =>
    match func with
    | .name i =>
      let mo := lookup_alias scopes i
      if optTruthy mo.2 then some (mo.1, mo.2.getD "") else some (mo.1, i)
    | .attributeE base attr =>
      match base with
      | .name bi =>
        let mo := lookup_alias scopes bi
        some (some (if optTruthy mo.1 then mo.1.getD "" else bi), attr)
      | .attributeE bv ba =>
        match dotted_name (.attributeE bv ba) with
        | some d => some (some d, attr)
        | none => none
      | .call beid bln bf bargs bkws =>
        match call_signature scopes (.call beid bln bf bargs bkws) with
        | some (m, o) =>
          let module_name : String :=
            if o = "" then (match m with | some s => s | none => "")
            else (match m with | some s => s ++ "." ++ o | none => o)
          some (some (if module_name = "" then o else module_name), attr)
        | none => none
      | _ => none
    | _ => none
  | _ => none

mutual
/-- `_collect_names`. -/
def collect_names : PExpr → List String
  | .tuple es => collect_names_list es
  | .listE es => collect_names_list es
  | .name i => [i]
  | .attributeE v a =>
    match dotted_name (.attributeE v a) with
    | some d => [d]
    | none => []
  | _ => []
def collect_names_list : PExprList → List String
  | .nil => []
  | .cons e es => collect_names e ++ collect_names_list es
end

/-- `self.safe_calls.add(eid)`. -/
def addSafe (eid : Nat) (st : Analyzer) : Analyzer :=
  { st with safe_calls := eid :: st.safe_calls }

/-- `_add_record`. -/
def add_record (n : Option String) (k : RKind) (ln : Nat) (st : Analyzer) : Analyzer :=
  let idx := st.records.length
  let st' := { st with records := st.records ++ [⟨n, k, ln, false⟩] }
  match n with
  | some s =>
    if s = "" then st'
    else
      match st'.scope_stack with
      | [] => st'
      | sc :: rest => { st' with scope_stack := sc.appendRecord s idx :: rest }
  | none => st'

/-- The per-record test of the inner loop of `_mark_released`:
`not rec.released and (kind is None or rec.kind == kind)`. -/
def recMatches (records : List ResourceRecord) (k? : Option RKind) (i : Nat) : Bool :=
  match records.get? i with
  | some r => !r.released && (match k? with | none => true | some k => decide (r.kind = k))
  | none => false

/-- The search of `_mark_released`: scopes innermost outward, each scope's
record list for the name scanned most-recent-first; the first unreleased
record of matching kind wins. -/
def findRelease (records : List ResourceRecord) (k? : Option RKind) :
    List Scope → String → Option Nat
  | [], _ => none
  | sc :: rest, n =>
    match ((sc.byNameGet n).getD []).reverse.find? (fun i => recMatches records k? i) with
    | some i => some i
    | none => findRelease records k? rest n

/-- Set `rec.released = True` at an index of the flat record list. -/
def setReleasedAt : List ResourceRecord → Nat → List ResourceRecord
  | [], _ => []
  | r :: rs, 0 => { r with released := true } :: rs
  | r :: rs, Nat.succ i => r :: setReleasedAt rs i

/-- `_mark_released` (all call sites pass `check_all_scopes=True`, so the
search always walks the whole stack outward). -/
def mark_released (n? : Option String) (k? : Option RKind) (st : Analyzer) : Analyzer :=
  if optTruthy n? then
    match findRelease st.records k? st.scope_stack (n?.getD "") with
    | some i => { st with records := setReleasedAt st.records i }
    | none => st
  else st

mutual
/-- `_mark_safe_calls`. -/
def mark_safe_calls : PExpr → Analyzer → Analyzer
  | .call eid ln func args kws, st =>
    let st1 :=
      match (call_signature st.scope_stack (.call eid ln func args kws)).bind targetKind with
      | some _ => addSafe eid st
      | none => st
    mark_safe_calls_list kws (mark_safe_calls_list args st1)
  | .attributeE v _, st => mark_safe_calls v st
  | _, st => st
def mark_safe_calls_list : PExprList → Analyzer → Analyzer
  | .nil, st => st
  | .cons e es, st => mark_safe_calls_list es (mark_safe_calls e st)
end

/-- `_mark_context_safe`. -/
def mark_context_safe (items : PExprList) (st : Analyzer) : Analyzer :=
  mark_safe_calls_list items st

mutual
/-- `_mark_task_released_from_expr`. -/
def mark_task_released_from_expr : PExpr → Analyzer → Analyzer
  | .name i, st => mark_released (some i) (some .asyncio_task) st
  | .call eid ln f args kws, st =>
    match (call_signature st.scope_stack (.call eid ln f args kws)).bind targetKind with
    | some k => if k = .asyncio_task then addSafe eid st else st
    | none => st
  | .starred v, st => mark_task_released_from_expr v st
  | .tuple es, st => mark_task_released_list es st
  | .listE es, st => mark_task_released_list es st
  | .setE es, st => mark_task_released_list es st
  | _, st => st
def mark_task_released_list : PExprList → Analyzer → Analyzer
  | .nil, st => st
  | .cons e es, st => mark_task_released_list es (mark_task_released_from_expr e st)
end

/-- The chained-release test inside `_handle_release`: when the receiver is
itself a call whose signature is an acquisition, and the method releases
that kind, mark the receiver call safe. -/
def chain_safe_mark (attr : String) (fval : PExpr) (st : Analyzer) : Analyzer :=
  match fval with
  | .call beid bln bf bargs bkws =>
    match (call_signature st.scope_stack (.call beid bln bf bargs bkws)).bind targetKind with
    | some bk => if attr ∈ RELEASE_METHODS bk then addSafe beid st else st
    | none => st
  | _ => st

/-- The `isinstance(func, ast.Attribute)` block of `_handle_release`:
chained-release marking, then release-by-name using the first kind in
`RELEASE_METHODS` iteration order whose method set contains the method. -/
def handle_release_attr (c : PExpr) (st : Analyzer) : Analyzer :=
  match c with
  | .call _ _ (.attributeE fval attr) _ _ =>
    let stA := chain_safe_mark attr fval st
    let n? := dotted_name fval
    match kindOrder.find? (fun k => attr ∈ RELEASE_METHODS k) with
    | some k => mark_released n? (some k) stA
    | none => stA
  | _ => st

/-- The task-consuming-combinator block of `_handle_release`. -/
def handle_release_task (c : PExpr) (st1 : Analyzer) : Analyzer :=
  match c with
  | .call _ _ _ args kws =>
    match call_signature st1.scope_stack c with
    | some s =>
      if s ∈ TASK_RELEASE_SIGS then
        mark_task_released_list kws (mark_task_released_list args st1)
      else st1
    | none => st1
  | _ => st1

/-- `_handle_release`: the attribute block, then the combinator block. -/
def handle_release (c : PExpr) (st : Analyzer) : Analyzer :=
  handle_release_task c (handle_release_attr c st)

/-- `_handle_assignment`. -/
def handle_assignment (targets : PExprList) (value : PExpr) (st : Analyzer) : Analyzer :=
  match value with
  | .call eid ln vf va vk =>
    match (call_signature st.scope_stack (.call eid ln vf va vk)).bind targetKind with
    | some k =>
      let st' := { st with assigned_calls := eid :: st.assigned_calls }
      match collect_names_list targets with
      | [] => add_record none k ln st'
      | ns => ns.foldl (fun s n => add_record (some n) k ln s) st'
    | none => st
  | _ => st

/-- The special handling at the top of `visit_Await`. -/
def handle_await_value (v : PExpr) (st : Analyzer) : Analyzer :=
  match v with
  | .name i => mark_released (some i) (some .asyncio_task) st
  | .call eid ln f a k =>
    match (call_signature st.scope_stack (.call eid ln f a k)).bind targetKind with
    | some kk => if kk = .asyncio_task then addSafe eid st else st
    | none => st
  | _ => st

/-- `self.scope_stack.append(Scope())`. -/
def pushScope (st : Analyzer) : Analyzer :=
  { st with scope_stack := ⟨[], []⟩ :: st.scope_stack }

/-- `self.scope_stack.pop()`. -/
def popScope (st : Analyzer) : Analyzer :=
  { st with scope_stack := st.scope_stack.tail }

/-- Bind an import alias in the current (innermost) scope. -/
def bind_import (st : Analyzer) (n : String) (v : Option String × Option String) : Analyzer :=
  match st.scope_stack with
  | [] => st
  | sc :: rest => { st with scope_stack := sc.bindAlias n v :: rest }

/-! ### The traversal

`visit_expr`/`visit_stmt` are the `NodeVisitor.visit` dispatch: nodes with
a dedicated `visit_X` get its body, all others get `generic_visit`, which
walks children in AST field order. -/

/-- The acquisition-recording step at the top of `visit_Call`: a call that
is not consumed by an assignment, whose signature is an acquisition, and
that is not marked safe, records an unnamed resource. -/
def visit_call_record (eid ln : Nat) (c : PExpr) (st : Analyzer) : Analyzer :=
  if eid ∈ st.assigned_calls then st
  else
    match (call_signature st.scope_stack c).bind targetKind with
    | some k => if eid ∈ st.safe_calls then st else add_record none k ln st
    | none => st

mutual
/-- `visit` on an expression node. -/
def visit_expr : PExpr → Analyzer → Analyzer
  | .call eid ln func args kws, st =>
    let c := PExpr.call eid ln func args kws
    let st2 := handle_release c (visit_call_record eid ln c st)
    visit_exprs kws (visit_exprs args (visit_expr func st2))
  | .attributeE v _, st => visit_expr v st
  | .awaitE v, st => visit_expr v (handle_await_value v st)
  | .tuple es, st => visit_exprs es st
  | .listE es, st => visit_exprs es st
  | .setE es, st => visit_exprs es st
  | .starred v, st => visit_expr v st
  | .name _, st => st
  | .constE, st => st
/-- `generic_visit` over a list of child expressions. -/
def visit_exprs : PExprList → Analyzer → Analyzer
  | .nil, st => st
  | .cons e es, st => visit_exprs es (visit_expr e st)
end

mutual
/-- `visit` on a statement node. -/
def visit_stmt : PStmt → Analyzer → Analyzer
  | .functionDef _ body, st => popScope (visit_stmts body (pushScope st))
  | .asyncFunctionDef _ body, st => popScope (visit_stmts body (pushScope st))
  | .importStmt names, st =>
    names.foldl (fun s p => bind_import s (p.2.getD p.1) (some p.1, none)) st
  | .importFrom m names, st =>
    names.foldl
      (fun s p =>
        if p.1 = "*" then s
        else bind_import s (p.2.getD p.1) (some (m.getD ""), some p.1)) st
  | .assign targets value, st =>
    visit_expr value (visit_exprs targets (handle_assignment targets value st))
  | .exprStmt v, st => visit_expr v st
  | .withStmt items body, st =>
    visit_stmts body (visit_exprs items (mark_context_safe items st))
  | .asyncWith items body, st =>
    visit_stmts body (visit_exprs items (mark_context_safe items st))
  | .returnStmt v?, st =>
    match v? with
    | some v => visit_expr v st
    | none => st
/-- `generic_visit` over a statement list (module/function/with bodies). -/
def visit_stmts : PStmtList → Analyzer → Analyzer
  | .nil, st => st
  | .cons s ss, st => visit_stmts ss (visit_stmt s st)
end

/-! ### The reporter -/

/-- Lexicographic comparison of strings as character lists (Python's `<`
on `str` compares code points left to right, shorter prefix first). -/
def strLtB : List Char → List Char → Bool
  | [], [] => false
  | [], _ :: _ => true
  | _ :: _, [] => false
  | a :: as, b :: bs => if a < b then true else if b < a then false else strLtB as bs

/-- The sort key comparison of `report`:
`key=lambda r: (r.lineno, r.kind, r.name or "")`, kinds compared as their
tag strings as in Python. -/
def sortKeyLe (a b : ResourceRecord) : Bool :=
  let an := a.name.getD ""
  let bn := b.name.getD ""
  decide (a.lineno < b.lineno) ||
    (decide (a.lineno = b.lineno) &&
      (strLtB (kindStr a.kind).data (kindStr b.kind).data ||
        (decide (kindStr a.kind = kindStr b.kind) &&
          (strLtB an.data bn.data || decide (an = bn)))))

/-- Stable insertion for the model of Python's stable `sorted`. -/
def insertSorted (a : ResourceRecord) : List ResourceRecord → List ResourceRecord
  | [] => [a]
  | b :: l => if sortKeyLe b a then b :: insertSorted a l else a :: b :: l

/-- Stable sort modelling `sorted(records, key=...)`. -/
def sortRecords (l : List ResourceRecord) : List ResourceRecord :=
  l.foldl (fun acc a => insertSorted a acc) []

/-- One diagnostic line: `f"{path}:{rec.lineno}\t{rec.kind}\t{message}"`. -/
def render (path : String) (r : ResourceRecord) : String :=
  let subject :=
    match r.name with
    | some s => if s = "" then kindStr r.kind else s
    | none => kindStr r.kind
  path ++ ":" ++ toString r.lineno ++ "\t" ++ kindStr r.kind ++ "\t" ++
    messageFor r.kind subject

/-- `Analyzer.report`: sorted, unreleased records rendered one line each. -/
def report (path : String) (records : List ResourceRecord) : List String :=
  ((sortRecords records).filter (fun r => !r.released)).map (render path)

/-- `Analyzer.__init__`: empty tables, a single root scope. -/
def initState : Analyzer := ⟨[], [], [], [⟨[], []⟩]⟩

/-- Run the visitor over a module body from the initial state. -/
def analyzeState (tree : PStmtList) : Analyzer :=
  visit_stmts tree initState

/-- `analyze` on a successfully parsed tree: traverse, then report. -/
def analyzeReport (path : String) (tree : PStmtList) : List String :=
  report path (analyzeState tree).records

/-! ### Source shapes of recognizable acquisition and release calls -/

/-- The callee of an acquisition call as written in source: a bare name
(`open(...)`) or a one-level dotted name (`socket.socket(...)`). -/
inductive AcqHead where
  | bare (f : String)
  | dotted (m f : String)

/-- The function expression of an acquisition call. -/
def AcqHead.func : AcqHead → PExpr
  | .bare f => .name f
  | .dotted m f => .attributeE (.name m) f

/-- The canonical signature the analyzer computes for such a callee when
no alias binding intervenes. -/
def AcqHead.sig : AcqHead → Sig
  | .bare f => (none, f)
  | .dotted m f => (some m, f)

/-- An argument-less acquisition call expression. -/
def acqCall (eid ln : Nat) (hd : AcqHead) : PExpr :=
  .call eid ln hd.func .nil .nil

/-- A chained acquire-and-release expression `acquire(...).method(...)`. -/
def chainExpr (oid oln aid aln : Nat) (hd : AcqHead) (rel : String) : PExpr :=
  .call oid oln (.attributeE (acqCall aid aln hd) rel) .nil .nil

/-- A release-method call on a bound name, `x.method()`. -/
def releaseExpr (rid rln : Nat) (x rel : String) : PExpr :=
  .call rid rln (.attributeE (.name x) rel) .nil .nil

/-- Concatenation of statement lists. -/
def PStmtList.append : PStmtList → PStmtList → PStmtList
  | .nil, l => l
  | .cons s ss, l => .cons s (ss.append l)

/-! ### A grammar of resource-clean programs

`CleanStmt` generates programs in which every acquisition is written with
one of the three release idioms of the specification: as the context
expression of a `with`/`async with` item, as a chained
`acquire(...).method(...)` expression, or as a name binding immediately
followed by an explicit release-method call on that name.  Function bodies
and `with` bodies nest the same grammar. -/

mutual
inductive CleanStmt where
  | cwith (isAsync : Bool) (eid ln : Nat) (hd : AcqHead) (body : CleanList)
  | cchain (oid oln aid aln : Nat) (hd : AcqHead) (rel : String)
  | cpair (aid aln rid rln : Nat) (x : String) (hd : AcqHead) (rel : String)
  | cfdef (isAsync : Bool) (nm : String) (body : CleanList)
inductive CleanList where
  | nil
  | cons (head : CleanStmt) (tail : CleanList)
end

mutual
def compileStmt : CleanStmt → PStmtList
  | .cwith false eid ln hd body =>
    .cons (.withStmt (.cons (acqCall eid ln hd) .nil) (compileList body)) .nil
  | .cwith true eid ln hd body =>
    .cons (.asyncWith (.cons (acqCall eid ln hd) .nil) (compileList body)) .nil
  | .cchain oid oln aid aln hd rel =>
    .cons (.exprStmt (chainExpr oid oln aid aln hd rel)) .nil
  | .cpair aid aln rid rln x hd rel =>
    .cons (.assign (.cons (.name x) .nil) (acqCall aid aln hd))
      (.cons (.exprStmt (releaseExpr rid rln x rel)) .nil)
  | .cfdef false nm body => .cons (.functionDef nm (compileList body)) .nil
  | .cfdef true nm body => .cons (.asyncFunctionDef nm (compileList body)) .nil
def compileList : CleanList → PStmtList
  | .nil => .nil
  | .cons s ss => (compileStmt s).append (compileList ss)
end

mutual
/-- The claim's literal reading of the idioms: the acquisition head is a
recognized acquisition signature; a chained method releases the
acquisition's own kind; a release call on a bound nonempty name uses a
method that is a release-method name *for some kind*. -/
def litOkStmt : CleanStmt → Bool
  | .cwith _ _ _ hd body => (targetKind hd.sig).isSome && litOkList body
  | .cchain _ _ _ _ hd rel =>
    match targetKind hd.sig with
    | some k => decide (rel ∈ RELEASE_METHODS k)
    | none => false
  | .cpair _ _ _ _ x hd rel =>
    (targetKind hd.sig).isSome && decide (x ≠ "") &&
      kindOrder.any (fun kd => decide (rel ∈ RELEASE_METHODS kd))
  | .cfdef _ _ body => litOkList body
def litOkList : CleanList → Bool
  | .nil => true
  | .cons s ss => litOkStmt s && litOkList ss
end

mutual
/-- The amended side condition: as `litOk`, except that a release-by-name
must use a method whose resolved kind — the first kind in the fixed
iteration order whose release-method set contains it — is the kind of the
acquisition it is meant to release. -/
def amendOkStmt : CleanStmt → Bool
  | .cwith _ _ _ hd body => (targetKind hd.sig).isSome && amendOkList body
  | .cchain _ _ _ _ hd rel =>
    match targetKind hd.sig with
    | some k => decide (rel ∈ RELEASE_METHODS k)
    | none => false
  | .cpair _ _ _ _ x hd rel =>
    match targetKind hd.sig with
    | some k =>
      decide (x ≠ "") &&
        decide (kindOrder.find? (fun kd => rel ∈ RELEASE_METHODS kd) = some k)
    | none => false
  | .cfdef _ _ body => amendOkList body
def amendOkList : CleanList → Bool
  | .nil => true
  | .cons s ss => amendOkStmt s && amendOkList ss
end

/-! ### The per-file driver (`analyze`), with the external reader/parser
modelled by its outcome

`analyze` calls `path.read_text(encoding="utf-8")` and `ast.parse`; both
are external collaborators of the core, so a file is presented to the
driver as the outcome of those two calls: reading raised `OSError`, or
decoding the bytes raised `UnicodeDecodeError` (a `ValueError`, not an
`OSError`), or parsing raised `SyntaxError`, or the text was read and
parsed into a tree. -/

inductive SourceInput where
  | unreadable (msg : String)
  | undecodable (msg : String)
  | unparseable (msg : String)
  | parsed (tree : PStmtList)

/-- Findings (stdout lines) and warnings (stderr lines) are separate
channels. -/
structure AnalyzeOutput where
  findings : List String
  warnings : List String
deriving DecidableEq

/-- `analyze(path, root)`: the two `except` clauses catch exactly
`OSError` (read failure) and `SyntaxError` (parse failure), recovering
each with one warning on the diagnostic channel and an empty findings
list; a parsed tree is traversed and reported.  Any other exception — in
particular `UnicodeDecodeError` raised by `read_text` on bytes that are
not valid UTF-8 — matches neither `except` clause and propagates to the
caller, modelled by `Except.error`. -/
def analyzeFile (path : String) (inp : SourceInput) : Except String AnalyzeOutput :=
  match inp with
  | .unreadable m => .ok ⟨[], ["WARN: Could not read " ++ path ++ ": " ++ m]⟩
  | .undecodable m => .error ("UnicodeDecodeError: " ++ m)
  | .unparseable m => .ok ⟨[], ["WARN: Syntax error in " ++ path ++ ": " ++ m]⟩
  | .parsed tree => .ok ⟨analyzeReport path tree, []⟩

/-- The batch loop of `main`: outputs are accumulated file by file and
printed only after the loop completes, so an exception escaping one
file's `analyze` aborts the run and every file's findings are lost. -/
def analyzeBatch : List (String × SourceInput) → Except String AnalyzeOutput
  | [] => .ok ⟨[], []⟩
  | f :: fs =>
    match analyzeFile f.1 f.2 with
    | .error e => .error e
    | .ok o =>
      match analyzeBatch fs with
      | .error e => .error e
      | .ok rest => .ok ⟨o.findings ++ rest.findings, o.warnings ++ rest.warnings⟩

/-! ### Example programs used by the claims -/

/-- A bare acquisition statement, never released. -/
def bareAcqProg (eid ln : Nat) (hd : AcqHead) : PStmtList :=
  .cons (.exprStmt (acqCall eid ln hd)) .nil

/-- `x = open(...)` on line 1, `x = open(...)` on line 2, `x.close()` on
line 3. -/
def reassignProg (x : String) : PStmtList :=
  .cons (.assign (.cons (.name x) .nil) (acqCall 1 1 (.bare "open")))
    (.cons (.assign (.cons (.name x) .nil) (acqCall 2 2 (.bare "open")))
      (.cons (.exprStmt (releaseExpr 3 3 x "close")) .nil))

/-- `with acquire(...):` (or `async with`) with an empty body and no other
release anywhere. -/
def withAcqProg (isAsync : Bool) (eid ln : Nat) (hd : AcqHead) : PStmtList :=
  if isAsync then .cons (.asyncWith (.cons (acqCall eid ln hd) .nil) .nil) .nil
  else .cons (.withStmt (.cons (acqCall eid ln hd) .nil) .nil) .nil

/-- `with wrapper(acquire(...)):` — the acquisition is nested as an
argument of another call inside the same with-item. -/
def withNestedProg (aid al wid wl : Nat) (hd : AcqHead) : PStmtList :=
  .cons (.withStmt
    (.cons (.call wid wl (.name "wrapper") (.cons (acqCall aid al hd) .nil) .nil) .nil)
    .nil) .nil

/-- A chained `acquire(...).method(...)` statement. -/
def chainProg (oid oln aid aln : Nat) (hd : AcqHead) (rel : String) : PStmtList :=
  .cons (.exprStmt (chainExpr oid oln aid aln hd rel)) .nil

/-- `x = acquire(...)` at module level, then `def inner(): x.method()`. -/
def crossScopeProg (aid aln rid rln : Nat) (x : String) (hd : AcqHead) (rel : String) :
    PStmtList :=
  .cons (.assign (.cons (.name x) .nil) (acqCall aid aln hd))
    (.cons (.functionDef "inner" (.cons (.exprStmt (releaseExpr rid rln x rel)) .nil)) .nil)

/-- `s = socket.socket()` then `s.close()`. -/
def progSockClose : PStmtList :=
  .cons (.assign (.cons (.name "s") .nil) (acqCall 1 1 (.dotted "socket" "socket")))
    (.cons (.exprStmt (releaseExpr 2 2 "s" "close")) .nil)

/-- `s = socket.socket()` then `s.shutdown()`. -/
def progSockShutdown : PStmtList :=
  .cons (.assign (.cons (.name "s") .nil) (acqCall 1 1 (.dotted "socket" "socket")))
    (.cons (.exprStmt (releaseExpr 2 2 "s" "shutdown")) .nil)

/-- `t = asyncio.create_task(...)`. -/
def taskBindStmt : PStmt :=
  .assign (.cons (.name "t") .nil) (acqCall 1 1 (.dotted "asyncio" "create_task"))

/-- The task binding followed by `asyncio.gather(<args>, <keywords>)`. -/
def gatherProg (args kws : PExprList) : PStmtList :=
  .cons taskBindStmt
    (.cons (.exprStmt (.call 2 2 (.attributeE (.name "asyncio") "gather") args kws)) .nil)

/-- `asyncio.gather(asyncio.create_task(...))`: a freshly created task
passed directly to a combinator. -/
def freshGatherProg : PStmtList :=
  .cons (.exprStmt (.call 2 2 (.attributeE (.name "asyncio") "gather")
    (.cons (acqCall 1 2 (.dotted "asyncio" "create_task")) .nil) .nil)) .nil

/-! ### Invariants -/

/-- All alias tables on the stack are empty (no imports executed). -/
def aliasesEmpty (scopes : List Scope) : Prop := ∀ sc ∈ scopes, sc.aliases = []

/-- The invariant of clean-program traversal: every record created so far
is already released, no aliases are bound, and the scope stack is
nonempty. -/
def Inv (st : Analyzer) : Prop :=
  (∀ r ∈ st.records, r.released = true) ∧ aliasesEmpty st.scope_stack ∧
    st.scope_stack ≠ []

/-- Scope-stack shape relation: a step keeps the stack depth and every
scope other than the innermost one untouched. -/
def scopesTail (st st' : Analyzer) : Prop :=
  st'.scope_stack.length = st.scope_stack.length ∧
    st'.scope_stack.tail = st.scope_stack.tail

/-! ### Facts about the static signature tables -/

lemma targetKind_mem {s : Sig} {k : RKind} (h : targetKind s = some k) :
    (s, k) ∈ TARGET_SIGS := by
  unfold targetKind at h
  rcases hfind : TARGET_SIGS.find? (fun p => p.1 = s) with _ | p
  · rw [hfind] at h; exact absurd h (by simp)
  · rw [hfind] at h
    have h2 : p.2 = k := by simpa using h
    have h1 : p.1 = s := by simpa using List.find?_some hfind
    have hm := List.mem_of_find?_eq_some hfind
    subst h1; subst h2
    simpa using hm

lemma target_facts : ∀ p ∈ TARGET_SIGS,
    p.1.2 ≠ "" ∧ (∀ kd ∈ kindOrder, p.1.2 ∉ RELEASE_METHODS kd) ∧
      p.1 ∉ TASK_RELEASE_SIGS := by decide

lemma acq_snd_ne_empty {s : Sig} {k : RKind} (h : targetKind s = some k) : s.2 ≠ "" :=
  (target_facts (s, k) (targetKind_mem h)).1

/-- An acquisition symbol name is never itself a release-method name, so
`_handle_release`'s scan of `RELEASE_METHODS.items()` finds nothing for it. -/
lemma acq_no_release_method {s : Sig} {k : RKind} (h : targetKind s = some k) :
    kindOrder.find? (fun kd => s.2 ∈ RELEASE_METHODS kd) = none := by
  rw [List.find?_eq_none]
  intro kd hkd
  simp only [decide_eq_true_eq]
  exact fun hmem => ((target_facts (s, k) (targetKind_mem h)).2.1 kd hkd) hmem

lemma acq_not_task {s : Sig} {k : RKind} (h : targetKind s = some k) :
    s ∉ TASK_RELEASE_SIGS :=
  (target_facts (s, k) (targetKind_mem h)).2.2

/-- A signature whose symbol part is a release-method name is never an
acquisition signature (release methods and acquisition symbols are disjoint). -/
lemma release_not_target {r : String}
    (hr : ∃ k, r ∈ RELEASE_METHODS k) (m? : Option String) :
    targetKind (m?, r) = none := by
  unfold targetKind
  rw [Option.map_eq_none', List.find?_eq_none]
  intro p hp
  simp only [decide_eq_true_eq]
  intro he
  rcases hr with ⟨k, hk⟩
  have hfacts : ∀ p ∈ TARGET_SIGS, ∀ kd ∈ kindOrder, p.1.2 ∉ RELEASE_METHODS kd :=
    fun p hp => (target_facts p hp).2.1
  have hkd : k ∈ kindOrder := by cases k <;> simp [kindOrder]
  exact hfacts p hp k hkd (by rw [congrArg Prod.snd he]; exact hk)

lemma find?_release_mem {r : String} {k : RKind}
    (h : kindOrder.find? (fun kd => r ∈ RELEASE_METHODS kd) = some k) :
    r ∈ RELEASE_METHODS k := by
  have := List.find?_some h
  simpa using this

/-! ### Shape lemmas for the analyzer state -/

lemma lookup_alias_empty {scopes : List Scope} (h : aliasesEmpty scopes) (n : String) :
    lookup_alias scopes n = (none, none) := by
  induction scopes with
  | nil => rfl
  | cons sc rest ih =>
    have h1 : sc.aliases = [] := h sc (by simp)
    have h2 : aliasesEmpty rest := fun s hs => h s (by simp [hs])
    unfold lookup_alias Scope.aliasGet
    rw [h1]
    simpa using ih h2

lemma call_signature_bare {scopes : List Scope} (h : aliasesEmpty scopes)
    (eid ln : Nat) (f : String) (args kws : PExprList) :
    call_signature scopes (.call eid ln (.name f) args kws) = some (none, f) := by
  simp only [call_signature]
  rw [lookup_alias_empty h]
  rfl

lemma call_signature_dotted {scopes : List Scope} (h : aliasesEmpty scopes)
    (eid ln : Nat) (m f : String) (args kws : PExprList) :
    call_signature scopes (.call eid ln (.attributeE (.name m) f) args kws) =
      some (some m, f) := by
  simp only [call_signature]
  rw [lookup_alias_empty h]
  rfl

/-- `mark_released` never touches the scope stack (the released flag lives
in the flat record list). -/
lemma mark_released_scope_stack (n? : Option String) (k? : Option RKind) (st : Analyzer) :
    (mark_released n? k? st).scope_stack = st.scope_stack := by
  unfold mark_released
  split
  · split <;> rfl
  · rfl

lemma mark_released_safe_calls (n? : Option String) (k? : Option RKind) (st : Analyzer) :
    (mark_released n? k? st).safe_calls = st.safe_calls := by
  unfold mark_released
  split
  · split <;> rfl
  · rfl

lemma mark_released_assigned_calls (n? : Option String) (k? : Option RKind) (st : Analyzer) :
    (mark_released n? k? st).assigned_calls = st.assigned_calls := by
  unfold mark_released
  split
  · split <;> rfl
  · rfl

lemma addSafe_scope_stack (eid : Nat) (st : Analyzer) :
    (addSafe eid st).scope_stack = st.scope_stack := rfl

/-! ### Reporter lemmas -/

lemma mem_insertSorted {r a : ResourceRecord} :
    ∀ {l : List ResourceRecord}, r ∈ insertSorted a l → r = a ∨ r ∈ l := by
  intro l
  induction l with
  | nil => intro h; simpa [insertSorted] using h
  | cons b t ih =>
    intro h
    unfold insertSorted at h
    split at h
    · rcases List.mem_cons.mp h with h1 | h1
      · exact Or.inr (by simp [h1])
      · rcases ih h1 with h2 | h2
        · exact Or.inl h2
        · exact Or.inr (by simp [h2])
    · rcases List.mem_cons.mp h with h1 | h1
      · exact Or.inl h1
      · exact Or.inr h1

lemma mem_sortRecords_aux {r : ResourceRecord} :
    ∀ (l acc : List ResourceRecord),
      r ∈ l.foldl (fun acc a => insertSorted a acc) acc → r ∈ acc ∨ r ∈ l := by
  intro l
  induction l with
  | nil => intro acc h; exact Or.inl h
  | cons a t ih =>
    intro acc h
    rcases ih (insertSorted a acc) h with h1 | h1
    · rcases mem_insertSorted h1 with h2 | h2
      · exact Or.inr (by simp [h2])
      · exact Or.inl h2
    · exact Or.inr (by simp [h1])

lemma mem_sortRecords {r : ResourceRecord} {l : List ResourceRecord}
    (h : r ∈ sortRecords l) : r ∈ l := by
  rcases mem_sortRecords_aux l [] h with h1 | h1
  · simp at h1
  · exact h1

/-- If every record is released, the report is empty. -/
lemma report_eq_nil {path : String} {records : List ResourceRecord}
    (h : ∀ r ∈ records, r.released = true) : report path records = [] := by
  unfold report
  rw [List.map_eq_nil_iff]
  rw [List.filter_eq_nil_iff]
  intro r hr
  simp [h r (mem_sortRecords hr)]

/-! ### Scope-stack discipline -/

lemma scopesTail_refl (st : Analyzer) : scopesTail st st := ⟨rfl, rfl⟩

lemma scopesTail_of_eq {st st' : Analyzer} (h : st'.scope_stack = st.scope_stack) :
    scopesTail st st' := ⟨by rw [h], by rw [h]⟩

lemma scopesTail_trans {a b c : Analyzer} (h1 : scopesTail a b) (h2 : scopesTail b c) :
    scopesTail a c := ⟨h2.1.trans h1.1, h2.2.trans h1.2⟩

lemma add_record_scopesTail (n : Option String) (k : RKind) (ln : Nat) (st : Analyzer) :
    scopesTail st (add_record n k ln st) := by
  unfold add_record scopesTail
  cases n with
  | none => simp
  | some s =>
    by_cases hs : s = ""
    · simp [hs]
    · simp only [hs, if_false]
      cases hscopes : st.scope_stack with
      | nil => simp [hscopes]
      | cons sc rest => simp [hscopes]

lemma bind_import_scopesTail (st : Analyzer) (n : String) (v : Option String × Option String) :
    scopesTail st (bind_import st n v) := by
  unfold bind_import scopesTail
  cases hscopes : st.scope_stack with
  | nil => simp [hscopes]
  | cons sc rest => simp [hscopes]

mutual
theorem mark_safe_calls_scope : ∀ (e : PExpr) (st : Analyzer),
    (mark_safe_calls e st).scope_stack = st.scope_stack
  | .call eid ln func args kws, st => by
    simp only [mark_safe_calls]
    rw [mark_safe_calls_list_scope, mark_safe_calls_list_scope]
    split <;> rfl
  | .attributeE v a, st => by
    simp only [mark_safe_calls]; exact mark_safe_calls_scope v st
  | .name _, st => by simp [mark_safe_calls]
  | .awaitE _, st => by simp [mark_safe_calls]
  | .tuple _, st => by simp [mark_safe_calls]
  | .listE _, st => by simp [mark_safe_calls]
  | .setE _, st => by simp [mark_safe_calls]
  | .starred _, st => by simp [mark_safe_calls]
  | .constE, st => by simp [mark_safe_calls]
theorem mark_safe_calls_list_scope : ∀ (es : PExprList) (st : Analyzer),
    (mark_safe_calls_list es st).scope_stack = st.scope_stack
  | .nil, st => rfl
  | .cons e es, st => by
    simp only [mark_safe_calls_list]
    rw [mark_safe_calls_list_scope, mark_safe_calls_scope]
end

mutual
theorem mark_task_scope : ∀ (e : PExpr) (st : Analyzer),
    (mark_task_released_from_expr e st).scope_stack = st.scope_stack
  | .name i, st => by
    simp only [mark_task_released_from_expr]; exact mark_released_scope_stack _ _ _
  | .call eid ln f args kws, st => by
    simp only [mark_task_released_from_expr]
    split
    · split <;> rfl
    · rfl
  | .starred v, st => by
    simp only [mark_task_released_from_expr]; exact mark_task_scope v st
  | .tuple es, st => by
    simp only [mark_task_released_from_expr]; exact mark_task_list_scope es st
  | .listE es, st => by
    simp only [mark_task_released_from_expr]; exact mark_task_list_scope es st
  | .setE es, st => by
    simp only [mark_task_released_from_expr]; exact mark_task_list_scope es st
  | .attributeE _ _, st => by simp [mark_task_released_from_expr]
  | .awaitE _, st => by simp [mark_task_released_from_expr]
  | .constE, st => by simp [mark_task_released_from_expr]
theorem mark_task_list_scope : ∀ (es : PExprList) (st : Analyzer),
    (mark_task_released_list es st).scope_stack = st.scope_stack
  | .nil, st => rfl
  | .cons e es, st => by
    simp only [mark_task_released_list]
    rw [mark_task_list_scope, mark_task_scope]
end

lemma chain_safe_mark_scope (attr : String) (fval : PExpr) (st : Analyzer) :
    (chain_safe_mark attr fval st).scope_stack = st.scope_stack := by
  unfold chain_safe_mark
  cases fval <;> (try rfl)
  next beid bln bf bargs bkws =>
    dsimp only
    split
    · split <;> rfl
    · rfl

lemma handle_release_attr_scope (c : PExpr) (st : Analyzer) :
    (handle_release_attr c st).scope_stack = st.scope_stack := by
  unfold handle_release_attr
  cases c <;> (try rfl)
  next eid ln func args kws =>
    cases func <;> (try rfl)
    next fval attr =>
      dsimp only
      split
      · rw [mark_released_scope_stack, chain_safe_mark_scope]
      · rw [chain_safe_mark_scope]

lemma handle_release_task_scope (c : PExpr) (st1 : Analyzer) :
    (handle_release_task c st1).scope_stack = st1.scope_stack := by
  unfold handle_release_task
  cases c <;> (try rfl)
  next eid ln func args kws =>
    dsimp only
    split
    · split
      · rw [mark_task_list_scope, mark_task_list_scope]
      · rfl
    · rfl

lemma handle_release_scope (c : PExpr) (st : Analyzer) :
    (handle_release c st).scope_stack = st.scope_stack := by
  unfold handle_release
  rw [handle_release_task_scope, handle_release_attr_scope]

lemma handle_await_scope (v : PExpr) (st : Analyzer) :
    (handle_await_value v st).scope_stack = st.scope_stack := by
  unfold handle_await_value
  cases v <;> simp only []
  case name i => exact mark_released_scope_stack _ _ _
  case call eid ln f a k =>
    split
    · split <;> rfl
    · rfl

lemma foldl_add_record_scopesTail (k : RKind) (ln : Nat) :
    ∀ (ns : List String) (st0 : Analyzer),
      scopesTail st0 (ns.foldl (fun s n => add_record (some n) k ln s) st0) := by
  intro ns
  induction ns with
  | nil => intro st0; exact scopesTail_refl st0
  | cons n t ih =>
    intro st0
    rw [List.foldl_cons]
    exact scopesTail_trans (add_record_scopesTail (some n) k ln st0) (ih _)

lemma handle_assignment_scopesTail (targets : PExprList) (value : PExpr) (st : Analyzer) :
    scopesTail st (handle_assignment targets value st) := by
  unfold handle_assignment
  cases value <;> (try exact scopesTail_refl st)
  case call eid ln vf va vk =>
    dsimp only
    split
    · split
      · exact scopesTail_trans (scopesTail_of_eq rfl) (add_record_scopesTail _ _ _ _)
      · exact scopesTail_trans (scopesTail_of_eq rfl) (foldl_add_record_scopesTail _ _ _ _)
    · exact scopesTail_refl st

mutual
theorem visit_expr_scopesTail : ∀ (e : PExpr) (st : Analyzer),
    scopesTail st (visit_expr e st)
  | .call eid ln func args kws, st => by
    simp only [visit_expr]
    refine scopesTail_trans ?_ (scopesTail_trans (visit_expr_scopesTail func _)
      (scopesTail_trans (visit_exprs_scopesTail args _) (visit_exprs_scopesTail kws _)))
    refine scopesTail_trans ?_ (scopesTail_of_eq (handle_release_scope _ _))
    unfold visit_call_record
    split
    · exact scopesTail_refl st
    · split
      · split
        · exact scopesTail_refl st
        · exact add_record_scopesTail _ _ _ _
      · exact scopesTail_refl st
  | .attributeE v a, st => by
    simp only [visit_expr]; exact visit_expr_scopesTail v st
  | .awaitE v, st => by
    simp only [visit_expr]
    exact scopesTail_trans (scopesTail_of_eq (handle_await_scope v st))
      (visit_expr_scopesTail v _)
  | .tuple es, st => by simp only [visit_expr]; exact visit_exprs_scopesTail es st
  | .listE es, st => by simp only [visit_expr]; exact visit_exprs_scopesTail es st
  | .setE es, st => by simp only [visit_expr]; exact visit_exprs_scopesTail es st
  | .starred v, st => by simp only [visit_expr]; exact visit_expr_scopesTail v st
  | .name _, st => scopesTail_refl st
  | .constE, st => scopesTail_refl st
theorem visit_exprs_scopesTail : ∀ (es : PExprList) (st : Analyzer),
    scopesTail st (visit_exprs es st)
  | .nil, st => scopesTail_refl st
  | .cons e es, st => by
    simp only [visit_exprs]
    exact scopesTail_trans (visit_expr_scopesTail e st) (visit_exprs_scopesTail es _)
end

mutual
theorem visit_stmt_scopesTail : ∀ (s : PStmt) (st : Analyzer),
    scopesTail st (visit_stmt s st)
  | .functionDef nm body, st => by
    simp only [visit_stmt]
    have h := visit_stmts_scopesTail body (pushScope st)
    refine ⟨?_, ?_⟩
    · show (visit_stmts body (pushScope st)).scope_stack.tail.length = _
      rw [List.length_tail, h.1]
      rfl
    · show (visit_stmts body (pushScope st)).scope_stack.tail.tail = _
      rw [h.2]
      rfl
  | .asyncFunctionDef nm body, st => by
    simp only [visit_stmt]
    have h := visit_stmts_scopesTail body (pushScope st)
    refine ⟨?_, ?_⟩
    · show (visit_stmts body (pushScope st)).scope_stack.tail.length = _
      rw [List.length_tail, h.1]
      rfl
    · show (visit_stmts body (pushScope st)).scope_stack.tail.tail = _
      rw [h.2]
      rfl
  | .importStmt names, st => by
    simp only [visit_stmt]
    have hfold : ∀ (l : List (String × Option String)) (st0 : Analyzer),
        scopesTail st0 (l.foldl (fun s p => bind_import s (p.2.getD p.1) (some p.1, none)) st0) := by
      intro l
      induction l with
      | nil => intro st0; exact scopesTail_refl st0
      | cons p t ih =>
        intro st0
        rw [List.foldl_cons]
        exact scopesTail_trans (bind_import_scopesTail st0 _ _) (ih _)
    exact hfold names st
  | .importFrom m names, st => by
    simp only [visit_stmt]
    have hfold : ∀ (l : List (String × Option String)) (st0 : Analyzer),
        scopesTail st0 (l.foldl
          (fun s p => if p.1 = "*" then s
            else bind_import s (p.2.getD p.1) (some (m.getD ""), some p.1)) st0) := by
      intro l
      induction l with
      | nil => intro st0; exact scopesTail_refl st0
      | cons p t ih =>
        intro st0
        rw [List.foldl_cons]
        refine scopesTail_trans ?_ (ih _)
        split
        · exact scopesTail_refl st0
        · exact bind_import_scopesTail st0 _ _
    exact hfold names st
  | .assign targets value, st => by
    simp only [visit_stmt]
    exact scopesTail_trans (handle_assignment_scopesTail targets value st)
      (scopesTail_trans (visit_exprs_scopesTail targets _) (visit_expr_scopesTail value _))
  | .exprStmt v, st => by
    simp only [visit_stmt]; exact visit_expr_scopesTail v st
  | .withStmt items body, st => by
    simp only [visit_stmt]
    exact scopesTail_trans (scopesTail_of_eq (mark_safe_calls_list_scope items st))
      (scopesTail_trans (visit_exprs_scopesTail items _) (visit_stmts_scopesTail body _))
  | .asyncWith items body, st => by
    simp only [visit_stmt]
    exact scopesTail_trans (scopesTail_of_eq (mark_safe_calls_list_scope items st))
      (scopesTail_trans (visit_exprs_scopesTail items _) (visit_stmts_scopesTail body _))
  | .returnStmt v?, st => by
    simp only [visit_stmt]
    cases v? with
    | none => exact scopesTail_refl st
    | some v => exact visit_expr_scopesTail v st
theorem visit_stmts_scopesTail : ∀ (b : PStmtList) (st : Analyzer),
    scopesTail st (visit_stmts b st)
  | .nil, st => scopesTail_refl st
  | .cons s ss, st => by
    simp only [visit_stmts]
    exact scopesTail_trans (visit_stmt_scopesTail s st) (visit_stmts_scopesTail ss _)
end

/-- Visiting a function definition restores the scope stack exactly: the
pushed scope is popped and no enclosing scope is modified, so inner
bindings and inner records never leak outward. -/
lemma visit_functionDef_scopes (nm : String) (body : PStmtList) (st : Analyzer) :
    (visit_stmt (.functionDef nm body) st).scope_stack = st.scope_stack := by
  simp only [visit_stmt]
  exact (visit_stmts_scopesTail body (pushScope st)).2

lemma visit_asyncFunctionDef_scopes (nm : String) (body : PStmtList) (st : Analyzer) :
    (visit_stmt (.asyncFunctionDef nm body) st).scope_stack = st.scope_stack := by
  simp only [visit_stmt]
  exact (visit_stmts_scopesTail body (pushScope st)).2

lemma call_signature_acq {scopes : List Scope} (hal : aliasesEmpty scopes)
    (hd : AcqHead) (eid ln : Nat) :
    call_signature scopes (acqCall eid ln hd) = some hd.sig := by
  cases hd with
  | bare f => exact call_signature_bare hal eid ln f .nil .nil
  | dotted m f => exact call_signature_dotted hal eid ln m f .nil .nil

/-- A primed restatement of `acq_no_release_method` for a destructured sig. -/
lemma acq_no_release_method' {m? : Option String} {f : String} {k : RKind}
    (hk : targetKind (m?, f) = some k) :
    kindOrder.find? (fun kd => f ∈ RELEASE_METHODS kd) = none :=
  acq_no_release_method hk

/-! ### Exact evaluation of the shape expressions -/

lemma visit_call_record_skip {st : Analyzer} {c : PExpr} (eid ln : Nat)
    (h : eid ∈ st.assigned_calls ∨ eid ∈ st.safe_calls ∨
      (call_signature st.scope_stack c).bind targetKind = none) :
    visit_call_record eid ln c st = st := by
  unfold visit_call_record
  by_cases ha : eid ∈ st.assigned_calls
  · rw [if_pos ha]
  · rw [if_neg ha]
    rcases h with h | h | h
    · exact absurd h ha
    · split
      · rw [if_pos h]
      · rfl
    · rw [h]

lemma handle_release_task_nil (eid ln : Nat) (f : PExpr) (st1 : Analyzer) :
    handle_release_task (.call eid ln f .nil .nil) st1 = st1 := by
  unfold handle_release_task
  dsimp only
  split
  · simp [mark_task_released_list, ite_self]
  · rfl

lemma handle_release_attr_acq {st : Analyzer} {k : RKind} {hd : AcqHead} (eid ln : Nat)
    (hk : targetKind hd.sig = some k) :
    handle_release_attr (acqCall eid ln hd) st = st := by
  cases hd with
  | bare f => rfl
  | dotted m f =>
    show handle_release_attr (.call eid ln (.attributeE (.name m) f) .nil .nil) st = st
    unfold handle_release_attr
    dsimp only
    rw [acq_no_release_method' hk]
    rfl

lemma handle_release_acq {st : Analyzer} {k : RKind} {hd : AcqHead} (eid ln : Nat)
    (hk : targetKind hd.sig = some k) :
    handle_release (acqCall eid ln hd) st = st := by
  unfold handle_release
  rw [handle_release_attr_acq eid ln hk]
  exact handle_release_task_nil eid ln hd.func st

lemma visit_expr_func_noop (hd : AcqHead) (st : Analyzer) : visit_expr hd.func st = st := by
  cases hd <;> rfl

/-- Visiting an acquisition call that is already consumed (safe or
assigned) leaves the state unchanged. -/
lemma visit_expr_acq_skip {st : Analyzer} {k : RKind} {hd : AcqHead} (eid ln : Nat)
    (hal : aliasesEmpty st.scope_stack) (hk : targetKind hd.sig = some k)
    (hskip : eid ∈ st.safe_calls ∨ eid ∈ st.assigned_calls) :
    visit_expr (acqCall eid ln hd) st = st := by
  have hsig := call_signature_acq hal hd eid ln
  show visit_expr (.call eid ln hd.func .nil .nil) st = st
  simp only [visit_expr]
  rw [show visit_call_record eid ln (.call eid ln hd.func .nil .nil) st = st from
    visit_call_record_skip eid ln (by
      rcases hskip with h | h
      · exact Or.inr (Or.inl h)
      · exact Or.inl h)]
  rw [show handle_release (.call eid ln hd.func .nil .nil) st = st from
    handle_release_acq eid ln hk]
  rw [visit_expr_func_noop]
  rfl

lemma add_record_safe_calls (n : Option String) (k : RKind) (ln : Nat) (st : Analyzer) :
    (add_record n k ln st).safe_calls = st.safe_calls := by
  unfold add_record
  cases n with
  | none => rfl
  | some s =>
    dsimp only
    split
    · rfl
    · split <;> rfl

lemma add_record_assigned_calls (n : Option String) (k : RKind) (ln : Nat) (st : Analyzer) :
    (add_record n k ln st).assigned_calls = st.assigned_calls := by
  unfold add_record
  cases n with
  | none => rfl
  | some s =>
    dsimp only
    split
    · rfl
    · split <;> rfl

lemma add_record_records (n : Option String) (k : RKind) (ln : Nat) (st : Analyzer) :
    (add_record n k ln st).records = st.records ++ [⟨n, k, ln, false⟩] := by
  unfold add_record
  cases n with
  | none => rfl
  | some s =>
    dsimp only
    split
    · rfl
    · split <;> rfl

/-- `add_record` never touches alias tables. -/
lemma add_record_aliasesEmpty {st : Analyzer} (n : Option String) (k : RKind) (ln : Nat)
    (h : aliasesEmpty st.scope_stack) : aliasesEmpty (add_record n k ln st).scope_stack := by
  unfold add_record
  cases n with
  | none => exact h
  | some s =>
    dsimp only
    split
    · exact h
    · split
      · exact h
      · next sc rest heq =>
        intro sc' hsc'
        rcases List.mem_cons.mp hsc' with h1 | h1
        · rw [h1]
          exact h sc (by rw [heq]; simp)
        · exact h sc' (by rw [heq]; simp [h1])

/-- `add_record` of a nonempty name on a nonempty stack, fully computed. -/
lemma add_record_cons {x : String} (hx : x ≠ "") (k : RKind) (ln : Nat)
    (records : List ResourceRecord) (safe assigned : List Nat) (sc : Scope) (rest : List Scope) :
    add_record (some x) k ln ⟨records, safe, assigned, sc :: rest⟩ =
      ⟨records ++ [⟨some x, k, ln, false⟩], safe, assigned,
        sc.appendRecord x records.length :: rest⟩ := by
  unfold add_record
  simp [hx]

/-- `_handle_assignment` for a single-name target bound to an acquisition. -/
lemma handle_assignment_acq {st : Analyzer} {k : RKind} {hd : AcqHead} (aid aln : Nat)
    (x : String) (hal : aliasesEmpty st.scope_stack) (hk : targetKind hd.sig = some k) :
    handle_assignment (.cons (.name x) .nil) (acqCall aid aln hd) st =
      add_record (some x) k aln
        { st with assigned_calls := aid :: st.assigned_calls } := by
  show handle_assignment (.cons (.name x) .nil) (.call aid aln hd.func .nil .nil) st = _
  unfold handle_assignment
  dsimp only
  rw [show call_signature st.scope_stack (.call aid aln hd.func .nil .nil) = some hd.sig from
    call_signature_acq hal hd aid aln]
  rw [Option.some_bind, hk]
  simp [collect_names_list, collect_names]

/-- Visiting `x = acquire(...)` records the resource under `x` in the
current scope and marks the call assigned; nothing else changes. -/
lemma visit_stmt_assign_acq {st : Analyzer} {k : RKind} {hd : AcqHead} (aid aln : Nat)
    (x : String) (hal : aliasesEmpty st.scope_stack) (hk : targetKind hd.sig = some k) :
    visit_stmt (.assign (.cons (.name x) .nil) (acqCall aid aln hd)) st =
      add_record (some x) k aln
        { st with assigned_calls := aid :: st.assigned_calls } := by
  simp only [visit_stmt]
  rw [handle_assignment_acq aid aln x hal hk]
  rw [show visit_exprs (.cons (.name x) .nil)
      (add_record (some x) k aln { st with assigned_calls := aid :: st.assigned_calls }) =
      add_record (some x) k aln { st with assigned_calls := aid :: st.assigned_calls } from rfl]
  exact visit_expr_acq_skip aid aln
    (add_record_aliasesEmpty _ _ _ hal)
    hk
    (Or.inr (by rw [add_record_assigned_calls]; simp))

/-- `setReleasedAt` at the index of a freshly appended record. -/
lemma setReleasedAt_concat (r : ResourceRecord) :
    ∀ (old : List ResourceRecord),
      setReleasedAt (old ++ [r]) old.length = old ++ [{ r with released := true }] := by
  intro old
  induction old with
  | nil => rfl
  | cons a t ih => simpa [setReleasedAt] using ih

lemma byNameGet_appendRecord (sc : Scope) (x : String) (idx : Nat) :
    (sc.appendRecord x idx).byNameGet x = some (((sc.byNameGet x).getD []) ++ [idx]) := by
  unfold Scope.appendRecord Scope.byNameGet
  simp

/-- `_mark_released` on a state whose innermost scope's newest entry under
`x` is a fresh unreleased record of the right kind: exactly that record is
flipped to released. -/
lemma mark_released_append {x : String} (hx : x ≠ "") (k : RKind) (aln : Nat)
    (old : List ResourceRecord) (safe assigned : List Nat) (sc : Scope) (rest : List Scope) :
    mark_released (some x) (some k)
      ⟨old ++ [⟨some x, k, aln, false⟩], safe, assigned,
        sc.appendRecord x old.length :: rest⟩ =
      ⟨old ++ [⟨some x, k, aln, true⟩], safe, assigned,
        sc.appendRecord x old.length :: rest⟩ := by
  unfold mark_released
  rw [if_pos (by simp [optTruthy, hx])]
  simp only [Option.getD_some]
  have hmatch : recMatches (old ++ [⟨some x, k, aln, false⟩]) (some k) old.length = true := by
    unfold recMatches
    rw [show (old ++ [(⟨some x, k, aln, false⟩ : ResourceRecord)]).get? old.length =
      some ⟨some x, k, aln, false⟩ from by simp]
    simp
  have hfind : findRelease (old ++ [⟨some x, k, aln, false⟩]) (some k)
      (sc.appendRecord x old.length :: rest) x = some old.length := by
    unfold findRelease
    rw [byNameGet_appendRecord]
    simp only [Option.getD_some, List.reverse_append, List.reverse_cons, List.reverse_nil,
      List.nil_append, List.singleton_append, List.find?_cons, hmatch]
  rw [hfind]
  dsimp only
  rw [setReleasedAt_concat]

/-- The canonical signature of `acquire(...).method(...)` keeps the method
as symbol and some nonempty dotted module path (never an acquisition
signature again). -/
lemma call_signature_chain {scopes : List Scope} (hal : aliasesEmpty scopes)
    (hd : AcqHead) (oid oln aid aln : Nat) (rel : String) :
    ∃ mm : String,
      call_signature scopes (chainExpr oid oln aid aln hd rel) = some (some mm, rel) := by
  cases hd with
  | bare f =>
    show ∃ mm, call_signature scopes
      (.call oid oln (.attributeE (.call aid aln (.name f) .nil .nil) rel) .nil .nil) =
        some (some mm, rel)
    simp only [call_signature]
    rw [lookup_alias_empty hal]
    exact ⟨_, rfl⟩
  | dotted m f =>
    show ∃ mm, call_signature scopes
      (.call oid oln
        (.attributeE (.call aid aln (.attributeE (.name m) f) .nil .nil) rel) .nil .nil) =
        some (some mm, rel)
    simp only [call_signature]
    rw [lookup_alias_empty hal]
    exact ⟨_, rfl⟩

lemma chain_safe_mark_acq {st : Analyzer} {k : RKind} {hd : AcqHead} (aid aln : Nat)
    (rel : String) (hal : aliasesEmpty st.scope_stack) (hk : targetKind hd.sig = some k)
    (hrel : rel ∈ RELEASE_METHODS k) :
    chain_safe_mark rel (acqCall aid aln hd) st = addSafe aid st := by
  show chain_safe_mark rel (.call aid aln hd.func .nil .nil) st = _
  unfold chain_safe_mark
  dsimp only
  rw [show call_signature st.scope_stack (.call aid aln hd.func .nil .nil) = some hd.sig from
    call_signature_acq hal hd aid aln]
  rw [Option.some_bind, hk]
  dsimp only
  rw [if_pos hrel]

lemma handle_release_attr_chain {st : Analyzer} {k : RKind} {hd : AcqHead}
    (oid oln aid aln : Nat) (rel : String) (hal : aliasesEmpty st.scope_stack)
    (hk : targetKind hd.sig = some k) (hrel : rel ∈ RELEASE_METHODS k) :
    handle_release_attr (chainExpr oid oln aid aln hd rel) st = addSafe aid st := by
  show handle_release_attr (.call oid oln (.attributeE (acqCall aid aln hd) rel) .nil .nil) st = _
  unfold handle_release_attr
  dsimp only
  rw [chain_safe_mark_acq aid aln rel hal hk hrel]
  rw [show dotted_name (acqCall aid aln hd) = none from rfl]
  split
  · rfl
  · rfl

/-- Visiting `acquire(...).method(...)` for a matching release method adds
the inner acquisition to the safe set and changes nothing else. -/
lemma visit_expr_chain {st : Analyzer} {k : RKind} {hd : AcqHead}
    (oid oln aid aln : Nat) (rel : String) (hal : aliasesEmpty st.scope_stack)
    (hk : targetKind hd.sig = some k) (hrel : rel ∈ RELEASE_METHODS k) :
    visit_expr (chainExpr oid oln aid aln hd rel) st = addSafe aid st := by
  obtain ⟨mm, hsig⟩ := call_signature_chain hal hd oid oln aid aln rel
  show visit_expr (.call oid oln (.attributeE (acqCall aid aln hd) rel) .nil .nil) st = _
  simp only [visit_expr]
  rw [visit_call_record_skip oid oln (Or.inr (Or.inr (by
    rw [show call_signature st.scope_stack
        (.call oid oln (.attributeE (acqCall aid aln hd) rel) .nil .nil) =
        some (some mm, rel) from hsig]
    rw [Option.some_bind]
    exact release_not_target ⟨k, hrel⟩ (some mm))))]
  rw [show handle_release (.call oid oln (.attributeE (acqCall aid aln hd) rel) .nil .nil) st =
      addSafe aid st from by
    unfold handle_release
    rw [show handle_release_attr
        (.call oid oln (.attributeE (acqCall aid aln hd) rel) .nil .nil) st =
        addSafe aid st from handle_release_attr_chain oid oln aid aln rel hal hk hrel]
    exact handle_release_task_nil oid oln _ _]
  rw [visit_call_record_skip aid aln (Or.inr (Or.inl (by simp [addSafe])))]
  rw [show handle_release (.call aid aln hd.func .nil .nil) (addSafe aid st) =
      addSafe aid st from handle_release_acq aid aln hk]
  rw [visit_expr_func_noop]
  rfl

lemma handle_release_attr_release {st : Analyzer} {k : RKind} (rid rln : Nat)
    (x rel : String)
    (hfind : kindOrder.find? (fun kd => rel ∈ RELEASE_METHODS kd) = some k) :
    handle_release_attr (releaseExpr rid rln x rel) st =
      mark_released (some x) (some k) (chain_safe_mark rel (.name x) st) := by
  show handle_release_attr (.call rid rln (.attributeE (.name x) rel) .nil .nil) st = _
  unfold handle_release_attr
  dsimp only
  rw [hfind]
  rfl

/-- Visiting `x.method()` performs exactly the release-by-name attribution
for the first kind whose release set contains the method. -/
lemma visit_expr_release {st : Analyzer} {k : RKind} (rid rln : Nat) (x rel : String)
    (hal : aliasesEmpty st.scope_stack)
    (hfind : kindOrder.find? (fun kd => rel ∈ RELEASE_METHODS kd) = some k) :
    visit_expr (releaseExpr rid rln x rel) st = mark_released (some x) (some k) st := by
  have hrel : rel ∈ RELEASE_METHODS k := find?_release_mem hfind
  show visit_expr (.call rid rln (.attributeE (.name x) rel) .nil .nil) st = _
  simp only [visit_expr]
  rw [visit_call_record_skip rid rln (Or.inr (Or.inr (by
    rw [show call_signature st.scope_stack
        (.call rid rln (.attributeE (.name x) rel) .nil .nil) = some (some x, rel) from
      call_signature_dotted hal rid rln x rel .nil .nil]
    rw [Option.some_bind]
    exact release_not_target ⟨k, hrel⟩ (some x))))]
  rw [show handle_release (.call rid rln (.attributeE (.name x) rel) .nil .nil) st =
      mark_released (some x) (some k) st from by
    unfold handle_release
    rw [show handle_release_attr (.call rid rln (.attributeE (.name x) rel) .nil .nil) st =
        mark_released (some x) (some k) (chain_safe_mark rel (.name x) st) from
      handle_release_attr_release rid rln x rel hfind]
    rw [show chain_safe_mark rel (.name x) st = st from rfl]
    exact handle_release_task_nil rid rln _ _]
  rfl

/-- `_mark_context_safe` on a single acquisition with-item adds the call to
the safe set. -/
lemma mark_context_safe_acq {st : Analyzer} {k : RKind} {hd : AcqHead} (eid ln : Nat)
    (hal : aliasesEmpty st.scope_stack) (hk : targetKind hd.sig = some k) :
    mark_context_safe (.cons (acqCall eid ln hd) .nil) st = addSafe eid st := by
  unfold mark_context_safe
  show mark_safe_calls_list (.cons (.call eid ln hd.func .nil .nil) .nil) st = _
  simp only [mark_safe_calls_list, mark_safe_calls]
  rw [show call_signature st.scope_stack (.call eid ln hd.func .nil .nil) = some hd.sig from
    call_signature_acq hal hd eid ln]
  rw [Option.some_bind, hk]

/-! ### Clean programs preserve the all-released invariant -/

theorem visit_stmts_append : ∀ (a b : PStmtList) (st : Analyzer),
    visit_stmts (a.append b) st = visit_stmts b (visit_stmts a st)
  | .nil, b, st => rfl
  | .cons s ss, b, st => by
    simp only [PStmtList.append, visit_stmts]
    rw [visit_stmts_append ss b (visit_stmt s st)]

lemma Inv_addSafe {st : Analyzer} (eid : Nat) (h : Inv st) : Inv (addSafe eid st) := h

mutual
theorem inv_visit_cleanStmt : ∀ (s : CleanStmt), amendOkStmt s = true →
    ∀ st : Analyzer, Inv st → Inv (visit_stmts (compileStmt s) st)
  | .cwith isAsync eid ln hd body, hok, st, hinv => by
    simp only [amendOkStmt] at hok
    rw [Bool.and_eq_true] at hok
    have hands := hok
    obtain ⟨k, hk⟩ := Option.isSome_iff_exists.mp hands.1
    have hal : aliasesEmpty st.scope_stack := hinv.2.1
    have hitems : visit_exprs (.cons (acqCall eid ln hd) .nil) (addSafe eid st) =
        addSafe eid st := by
      rw [show visit_exprs (.cons (acqCall eid ln hd) .nil) (addSafe eid st) =
        visit_expr (acqCall eid ln hd) (addSafe eid st) from rfl]
      exact visit_expr_acq_skip eid ln hal hk (Or.inl (by simp [addSafe]))
    cases isAsync
    · show Inv (visit_stmts
        (.cons (.withStmt (.cons (acqCall eid ln hd) .nil) (compileList body)) .nil) st)
      rw [show visit_stmts
          (.cons (.withStmt (.cons (acqCall eid ln hd) .nil) (compileList body)) .nil) st =
          visit_stmt (.withStmt (.cons (acqCall eid ln hd) .nil) (compileList body)) st
          from rfl]
      simp only [visit_stmt]
      rw [mark_context_safe_acq eid ln hal hk, hitems]
      exact inv_visit_cleanList body hands.2 (addSafe eid st) (Inv_addSafe eid hinv)
    · show Inv (visit_stmts
        (.cons (.asyncWith (.cons (acqCall eid ln hd) .nil) (compileList body)) .nil) st)
      rw [show visit_stmts
          (.cons (.asyncWith (.cons (acqCall eid ln hd) .nil) (compileList body)) .nil) st =
          visit_stmt (.asyncWith (.cons (acqCall eid ln hd) .nil) (compileList body)) st
          from rfl]
      simp only [visit_stmt]
      rw [mark_context_safe_acq eid ln hal hk, hitems]
      exact inv_visit_cleanList body hands.2 (addSafe eid st) (Inv_addSafe eid hinv)
  | .cchain oid oln aid aln hd rel, hok, st, hinv => by
    simp only [amendOkStmt] at hok
    rcases htk : targetKind hd.sig with _ | k
    · rw [htk] at hok; exact absurd hok (by simp)
    · rw [htk] at hok
      simp only [decide_eq_true_eq] at hok
      show Inv (visit_stmts (.cons (.exprStmt (chainExpr oid oln aid aln hd rel)) .nil) st)
      rw [show visit_stmts (.cons (.exprStmt (chainExpr oid oln aid aln hd rel)) .nil) st =
        visit_expr (chainExpr oid oln aid aln hd rel) st from rfl]
      rw [visit_expr_chain oid oln aid aln rel hinv.2.1 htk hok]
      exact Inv_addSafe aid hinv
  | .cpair aid aln rid rln x hd rel, hok, st, hinv => by
    simp only [amendOkStmt] at hok
    rcases htk : targetKind hd.sig with _ | k
    · rw [htk] at hok; exact absurd hok (by simp)
    · rw [htk] at hok
      simp only [Bool.and_eq_true, decide_eq_true_eq] at hok
      obtain ⟨hx, hfind⟩ := hok
      obtain ⟨recs, safeL, asgL, scopes⟩ := st
      obtain ⟨hrec, hal, hne⟩ := hinv
      cases scopes with
      | nil => exact absurd rfl hne
      | cons sc rest =>
        have hal' : aliasesEmpty (sc.appendRecord x recs.length :: rest) := by
          intro s hs
          rcases List.mem_cons.mp hs with h1 | h1
          · rw [h1]
            show sc.aliases = []
            exact hal sc (by simp)
          · exact hal s (by simp [h1])
        show Inv (visit_stmts
          (.cons (.assign (.cons (.name x) .nil) (acqCall aid aln hd))
            (.cons (.exprStmt (releaseExpr rid rln x rel)) .nil))
          ⟨recs, safeL, asgL, sc :: rest⟩)
        rw [show visit_stmts
            (.cons (.assign (.cons (.name x) .nil) (acqCall aid aln hd))
              (.cons (.exprStmt (releaseExpr rid rln x rel)) .nil))
            ⟨recs, safeL, asgL, sc :: rest⟩ =
          visit_stmt (.exprStmt (releaseExpr rid rln x rel))
            (visit_stmt (.assign (.cons (.name x) .nil) (acqCall aid aln hd))
              ⟨recs, safeL, asgL, sc :: rest⟩) from rfl]
        rw [visit_stmt_assign_acq aid aln x hal htk]
        rw [show ({ (⟨recs, safeL, asgL, sc :: rest⟩ : Analyzer) with
            assigned_calls := aid :: asgL } : Analyzer) =
          ⟨recs, safeL, aid :: asgL, sc :: rest⟩ from rfl]
        rw [add_record_cons hx k aln recs safeL (aid :: asgL) sc rest]
        simp only [visit_stmt]
        rw [visit_expr_release rid rln x rel hal' hfind]
        rw [mark_released_append hx k aln recs safeL (aid :: asgL) sc rest]
        refine ⟨?_, hal', by simp⟩
        intro r hr
        rcases List.mem_append.mp hr with h1 | h1
        · exact hrec r h1
        · rw [List.mem_singleton.mp h1]
  | .cfdef isAsync nm body, hok, st, hinv => by
    simp only [amendOkStmt] at hok
    obtain ⟨hrec, hal, hne⟩ := hinv
    have hinvP : Inv (pushScope st) := by
      refine ⟨hrec, ?_, by simp [pushScope]⟩
      intro s hs
      rcases List.mem_cons.mp hs with h1 | h1
      · rw [h1]
      · exact hal s h1
    have hbody := inv_visit_cleanList body hok (pushScope st) hinvP
    obtain ⟨hrecB, halB, hneB⟩ := hbody
    have hpop : ∀ stB : Analyzer, Inv stB →
        stB.scope_stack.length = st.scope_stack.length + 1 → Inv (popScope stB) := by
      intro stB hB hlen
      refine ⟨hB.1, ?_, ?_⟩
      · intro s hs
        exact hB.2.1 s (List.tail_subset _ hs)
      · show stB.scope_stack.tail ≠ []
        intro hcon
        have : stB.scope_stack.tail.length = 0 := by rw [hcon]; rfl
        rw [List.length_tail, hlen] at this
        simp at this
        exact hne this
    have hlen := (visit_stmts_scopesTail (compileList body) (pushScope st)).1
    cases isAsync
    · show Inv (visit_stmts (.cons (.functionDef nm (compileList body)) .nil) st)
      rw [show visit_stmts (.cons (.functionDef nm (compileList body)) .nil) st =
        visit_stmt (.functionDef nm (compileList body)) st from rfl]
      simp only [visit_stmt]
      exact hpop _ ⟨hrecB, halB, hneB⟩ (by rw [hlen]; rfl)
    · show Inv (visit_stmts (.cons (.asyncFunctionDef nm (compileList body)) .nil) st)
      rw [show visit_stmts (.cons (.asyncFunctionDef nm (compileList body)) .nil) st =
        visit_stmt (.asyncFunctionDef nm (compileList body)) st from rfl]
      simp only [visit_stmt]
      exact hpop _ ⟨hrecB, halB, hneB⟩ (by rw [hlen]; rfl)
theorem inv_visit_cleanList : ∀ (l : CleanList), amendOkList l = true →
    ∀ st : Analyzer, Inv st → Inv (visit_stmts (compileList l) st)
  | .nil, _, st, hinv => hinv
  | .cons s ss, hok, st, hinv => by
    simp only [amendOkList, Bool.and_eq_true] at hok
    show Inv (visit_stmts ((compileStmt s).append (compileList ss)) st)
    rw [visit_stmts_append]
    exact inv_visit_cleanList ss hok.2 _ (inv_visit_cleanStmt s hok.1 st hinv)
end

lemma Inv_initState : Inv initState := by
  refine ⟨by simp [initState], ?_, by simp [initState]⟩
  intro s hs
  simp only [initState] at hs
  rcases List.mem_singleton.mp hs with rfl
  rfl

/-- Any program of the clean grammar satisfying the amended side
conditions analyzes to an empty report. -/
theorem clean_program_reports_nothing (path : String) (p : CleanList)
    (hok : amendOkList p = true) : analyzeReport path (compileList p) = [] := by
  unfold analyzeReport analyzeState
  exact report_eq_nil (inv_visit_cleanList p hok initState Inv_initState).1

/-! ### Further helper lemmas for the individual claims -/

lemma findRelease_matches {records : List ResourceRecord} {k? : Option RKind}
    {n : String} {i : Nat} :
    ∀ {scopes : List Scope}, findRelease records k? scopes n = some i →
      recMatches records k? i = true := by
  intro scopes
  induction scopes with
  | nil => intro h; exact absurd h (by simp [findRelease])
  | cons sc rest ih =>
    intro h
    unfold findRelease at h
    rcases hf : (((sc.byNameGet n).getD []).reverse.find? (fun j => recMatches records k? j))
      with _ | j
    · rw [hf] at h
      exact ih h
    · rw [hf] at h
      have hj : j = i := by simpa using h
      have := List.find?_some hf
      rw [hj] at this
      exact this

lemma setReleasedAt_get?_ne :
    ∀ (l : List ResourceRecord) (j i : Nat), i ≠ j →
      (setReleasedAt l j).get? i = l.get? i := by
  intro l
  induction l with
  | nil => intro j i _; rfl
  | cons r rs ih =>
    intro j i hne
    cases j with
    | zero =>
      cases i with
      | zero => exact absurd rfl hne
      | succ i' => rfl
    | succ j' =>
      cases i with
      | zero => rfl
      | succ i' =>
        show (setReleasedAt rs j').get? i' = rs.get? i'
        exact ih j' i' (fun h => hne (by rw [h]))

/-- A freshly pushed (empty) scope contributes nothing to the release
search. -/
lemma findRelease_fresh (records : List ResourceRecord) (k? : Option RKind)
    (scopes : List Scope) (n : String) :
    findRelease records k? (Scope.mk [] [] :: scopes) n = findRelease records k? scopes n := by
  rfl

/-- `mark_released_append` through one freshly pushed scope (the
cross-scope release of a closure body). -/
lemma mark_released_append_fresh {x : String} (hx : x ≠ "") (k : RKind) (aln : Nat)
    (old : List ResourceRecord) (safe assigned : List Nat) (sc : Scope) (rest : List Scope) :
    mark_released (some x) (some k)
      ⟨old ++ [⟨some x, k, aln, false⟩], safe, assigned,
        Scope.mk [] [] :: sc.appendRecord x old.length :: rest⟩ =
      ⟨old ++ [⟨some x, k, aln, true⟩], safe, assigned,
        Scope.mk [] [] :: sc.appendRecord x old.length :: rest⟩ := by
  unfold mark_released
  rw [if_pos (by simp [optTruthy, hx])]
  simp only [Option.getD_some]
  have hmatch : recMatches (old ++ [⟨some x, k, aln, false⟩]) (some k) old.length = true := by
    unfold recMatches
    rw [show (old ++ [(⟨some x, k, aln, false⟩ : ResourceRecord)]).get? old.length =
      some ⟨some x, k, aln, false⟩ from by simp]
    simp
  have hfind : findRelease (old ++ [⟨some x, k, aln, false⟩]) (some k)
      (Scope.mk [] [] :: sc.appendRecord x old.length :: rest) x = some old.length := by
    rw [findRelease_fresh]
    unfold findRelease
    rw [byNameGet_appendRecord]
    simp only [Option.getD_some, List.reverse_append, List.reverse_cons, List.reverse_nil,
      List.nil_append, List.singleton_append, List.find?_cons, hmatch]
  rw [hfind]
  dsimp only
  rw [setReleasedAt_concat]

/-- A single unreleased record is rendered as exactly one line. -/
lemma report_singleton (path : String) (nm : Option String) (k : RKind) (ln : Nat) :
    report path [⟨nm, k, ln, false⟩] = [render path ⟨nm, k, ln, false⟩] := rfl

lemma handle_release_task_not_task {st1 : Analyzer} (eid ln : Nat) (f : PExpr)
    (args kws : PExprList) {s : Sig}
    (hsig : call_signature st1.scope_stack (.call eid ln f args kws) = some s)
    (hmem : s ∉ TASK_RELEASE_SIGS) :
    handle_release_task (.call eid ln f args kws) st1 = st1 := by
  unfold handle_release_task
  dsimp only
  rw [hsig]
  dsimp only
  rw [if_neg hmem]

lemma aliasesEmpty_init : aliasesEmpty initState.scope_stack := by
  intro s hs
  simp only [initState] at hs
  rcases List.mem_singleton.mp hs with rfl
  rfl

lemma mark_safe_calls_acq {st : Analyzer} {k : RKind} {hd : AcqHead} (eid ln : Nat)
    (hal : aliasesEmpty st.scope_stack) (hk : targetKind hd.sig = some k) :
    mark_safe_calls (acqCall eid ln hd) st = addSafe eid st := by
  show mark_safe_calls (.call eid ln hd.func .nil .nil) st = _
  simp only [mark_safe_calls]
  rw [show call_signature st.scope_stack (.call eid ln hd.func .nil .nil) = some hd.sig from
    call_signature_acq hal hd eid ln]
  rw [Option.some_bind, hk]
  rfl

lemma visit_call_record_acq_new {st : Analyzer} {k : RKind} {hd : AcqHead} (eid ln : Nat)
    (hal : aliasesEmpty st.scope_stack) (hk : targetKind hd.sig = some k)
    (hna : eid ∉ st.assigned_calls) (hns : eid ∉ st.safe_calls) :
    visit_call_record eid ln (acqCall eid ln hd) st = add_record none k ln st := by
  unfold visit_call_record
  rw [if_neg hna]
  rw [show call_signature st.scope_stack (acqCall eid ln hd) = some hd.sig from
    call_signature_acq hal hd eid ln]
  rw [Option.some_bind, hk]
  dsimp only
  rw [if_neg hns]

/-- Visiting a plain unconsumed acquisition call records exactly one
unnamed, unreleased record. -/
lemma visit_expr_acq_new {st : Analyzer} {k : RKind} {hd : AcqHead} (eid ln : Nat)
    (hal : aliasesEmpty st.scope_stack) (hk : targetKind hd.sig = some k)
    (hna : eid ∉ st.assigned_calls) (hns : eid ∉ st.safe_calls) :
    visit_expr (acqCall eid ln hd) st = add_record none k ln st := by
  show visit_expr (.call eid ln hd.func .nil .nil) st = _
  simp only [visit_expr]
  rw [show visit_call_record eid ln (.call eid ln hd.func .nil .nil) st =
    add_record none k ln st from visit_call_record_acq_new eid ln hal hk hna hns]
  rw [show handle_release (.call eid ln hd.func .nil .nil) (add_record none k ln st) =
    add_record none k ln st from handle_release_acq eid ln hk]
  rw [visit_expr_func_noop]
  rfl

/-! ### The claims -/

/-- C1, counterexample to the claim as stated: in the program
`s = socket.socket()` then `s.close()` the only acquisition is bound to a
name that later receives an explicit release-method call, and `close` is a
release-method name for some kind (for `file_handle`, and indeed for
`socket_handle` itself) — `litOkList` certifies this — yet the analyzer
reports the socket as leaked, because `_handle_release` resolves `close`
to `file_handle` (the first kind in `RELEASE_METHODS` iteration order) and
`_mark_released` then refuses to mark a record of a different kind. -/
theorem claim_C1_counterexample :
    litOkList (.cons (.cpair 1 1 2 2 "s" (.dotted "socket" "socket") "close") .nil) = true ∧
    analyzeReport "t.py"
      (compileList (.cons (.cpair 1 1 2 2 "s" (.dotted "socket" "socket") "close") .nil)) =
      ["t.py:1\tsocket_handle\tSocket s opened without close()"] :=
  ⟨by decide, by decide⟩

/-- C1 (amended): for every program of the clean grammar — each recognized
acquisition is the context expression of a `with`/`async with` item, or is
immediately followed by a chained release-method call of its own kind on
its result, or is bound to a name that immediately afterwards receives an
explicit release-method call whose method resolves, through the fixed kind
order (`file_handle`, `socket_handle`, `popen_handle`, `asyncio_task`,
stopping at the first kind whose release-method set contains it), to that
acquisition's kind — the analyzer produces an empty diagnostic list. -/
theorem claim_C1_amended (path : String) (p : CleanList)
    (hok : amendOkList p = true) : analyzeReport path (compileList p) = [] :=
  clean_program_reports_nothing path p hok

theorem claim_C1_amended_witness :
    amendOkList (.cons (.cwith false 1 1 (.bare "open")
        (.cons (.cchain 2 2 3 2 (.dotted "subprocess" "Popen") "wait") .nil))
      (.cons (.cpair 4 3 5 4 "f" (.bare "open") "close")
        (.cons (.cfdef false "g"
          (.cons (.cpair 6 6 7 7 "s" (.dotted "socket" "socket") "shutdown") .nil)) .nil))) =
      true ∧
    analyzeReport "t.py"
      (compileList (.cons (.cwith false 1 1 (.bare "open")
          (.cons (.cchain 2 2 3 2 (.dotted "subprocess" "Popen") "wait") .nil))
        (.cons (.cpair 4 3 5 4 "f" (.bare "open") "close")
          (.cons (.cfdef false "g"
            (.cons (.cpair 6 6 7 7 "s" (.dotted "socket" "socket") "shutdown") .nil)) .nil)))) =
      [] :=
  ⟨by decide, claim_C1_amended "t.py" _ (by decide)⟩

/-- C2: an acquisition whose record is never released yields exactly one
diagnostic line naming its kind: in general, a lone acquisition statement
reports exactly the one rendered line carrying its kind tag; and for each
of the four kinds a concrete program produces exactly that line. -/
theorem claim_C2 (path : String) (eid ln : Nat) (hd : AcqHead) (k : RKind)
    (hk : targetKind hd.sig = some k) :
    analyzeReport path (bareAcqProg eid ln hd) = [render path ⟨none, k, ln, false⟩] ∧
    (analyzeReport path (bareAcqProg eid ln hd)).length = 1 ∧
    analyzeReport "t.py" (bareAcqProg 1 1 (.bare "open")) =
      ["t.py:1\tfile_handle\tFile handle file_handle opened without context manager or close()"] ∧
    analyzeReport "t.py" (bareAcqProg 1 2 (.dotted "socket" "socket")) =
      ["t.py:2\tsocket_handle\tSocket socket_handle opened without close()"] ∧
    analyzeReport "t.py" (bareAcqProg 1 3 (.dotted "subprocess" "Popen")) =
      ["t.py:3\tpopen_handle\tsubprocess handle popen_handle never waited/terminated"] ∧
    analyzeReport "t.py" (bareAcqProg 1 4 (.dotted "asyncio" "create_task")) =
      ["t.py:4\tasyncio_task\tasyncio task asyncio_task neither awaited nor cancelled"] := by
  have hmain : analyzeReport path (bareAcqProg eid ln hd) =
      [render path ⟨none, k, ln, false⟩] := by
    unfold analyzeReport analyzeState bareAcqProg
    rw [show visit_stmts (.cons (.exprStmt (acqCall eid ln hd)) .nil) initState =
      visit_expr (acqCall eid ln hd) initState from rfl]
    rw [visit_expr_acq_new eid ln aliasesEmpty_init hk (by simp [initState]) (by simp [initState])]
    rfl
  refine ⟨hmain, by rw [hmain]; rfl, by decide, by decide, by decide, by decide⟩

theorem claim_C2_witness :
    targetKind (AcqHead.bare "open").sig = some RKind.file_handle ∧
    analyzeReport "w.py" (bareAcqProg 1 5 (.bare "open")) =
      [render "w.py" ⟨none, RKind.file_handle, 5, false⟩] :=
  ⟨by decide, (claim_C2 "w.py" 1 5 (.bare "open") RKind.file_handle (by decide)).1⟩

/-- C3: rebinding a name to a second acquisition and then releasing once
marks the *second* (freshest) record released, so exactly one diagnostic
survives and it carries the first acquisition's line (line 1, not 2). -/
theorem claim_C3 (path x : String) (hx : x ≠ "") :
    analyzeReport path (reassignProg x) =
      [render path ⟨some x, .file_handle, 1, false⟩] := by
  unfold analyzeReport analyzeState reassignProg
  rw [show visit_stmts (.cons (.assign (.cons (.name x) .nil) (acqCall 1 1 (.bare "open")))
      (.cons (.assign (.cons (.name x) .nil) (acqCall 2 2 (.bare "open")))
        (.cons (.exprStmt (releaseExpr 3 3 x "close")) .nil))) initState =
    visit_stmt (.exprStmt (releaseExpr 3 3 x "close"))
      (visit_stmt (.assign (.cons (.name x) .nil) (acqCall 2 2 (.bare "open")))
        (visit_stmt (.assign (.cons (.name x) .nil) (acqCall 1 1 (.bare "open")))
          initState)) from rfl]
  rw [visit_stmt_assign_acq 1 1 x aliasesEmpty_init
    (show targetKind (AcqHead.bare "open").sig = some RKind.file_handle by decide)]
  rw [show ({ initState with assigned_calls := 1 :: initState.assigned_calls } : Analyzer) =
    ⟨[], [], [1], [⟨[], []⟩]⟩ from rfl]
  rw [add_record_cons hx .file_handle 1 [] [] [1] ⟨[], []⟩ []]
  have hal1 : aliasesEmpty
      ((Scope.appendRecord ⟨[], []⟩ x ([] : List ResourceRecord).length) :: []) := by
    intro s hs
    rcases List.mem_singleton.mp hs with rfl
    rfl
  rw [visit_stmt_assign_acq 2 2 x hal1
    (show targetKind (AcqHead.bare "open").sig = some RKind.file_handle by decide)]
  rw [show ({ (⟨[] ++ [⟨some x, .file_handle, 1, false⟩], [], [1],
      (Scope.appendRecord ⟨[], []⟩ x ([] : List ResourceRecord).length) :: []⟩ : Analyzer) with
        assigned_calls := 2 :: [1] } : Analyzer) =
    ⟨[] ++ [⟨some x, .file_handle, 1, false⟩], [], [2, 1],
      (Scope.appendRecord ⟨[], []⟩ x ([] : List ResourceRecord).length) :: []⟩ from rfl]
  rw [add_record_cons hx .file_handle 2
    ([] ++ [(⟨some x, RKind.file_handle, 1, false⟩ : ResourceRecord)]) [] [2, 1]
    (Scope.appendRecord ⟨[], []⟩ x ([] : List ResourceRecord).length) []]
  simp only [visit_stmt]
  have hal2 : aliasesEmpty
      (((Scope.appendRecord ⟨[], []⟩ x ([] : List ResourceRecord).length).appendRecord x
        ([] ++ [(⟨some x, .file_handle, 1, false⟩ : ResourceRecord)]).length) :: []) := by
    intro s hs
    rcases List.mem_singleton.mp hs with rfl
    rfl
  rw [visit_expr_release 3 3 x "close" hal2 rfl]
  rw [mark_released_append hx .file_handle 2
    ([] ++ [(⟨some x, RKind.file_handle, 1, false⟩ : ResourceRecord)]) [] [2, 1]
    (Scope.appendRecord ⟨[], []⟩ x ([] : List ResourceRecord).length) []]
  rfl

theorem claim_C3_witness :
    ("f" : String) ≠ "" ∧
    analyzeReport "w.py" (reassignProg "f") =
      [render "w.py" ⟨some "f", .file_handle, 1, false⟩] :=
  ⟨by decide, claim_C3 "w.py" "f" (by decide)⟩

/-- C4: an acquisition in the context expression of a `with`/`async with`
item is entered into `safe_calls` by `_mark_context_safe` before the body
is visited and yields zero diagnostics even with no explicit release; the
marking recurses into argument expressions, so an acquisition nested as an
argument of another call in the same with-item is safe as well. -/
theorem claim_C4 (path : String) (hd : AcqHead) (k : RKind) (eid ln aid al wid wl : Nat)
    (hk : targetKind hd.sig = some k) :
    eid ∈ (mark_context_safe (.cons (acqCall eid ln hd) .nil) initState).safe_calls ∧
    analyzeReport path (withAcqProg false eid ln hd) = [] ∧
    analyzeReport path (withAcqProg true eid ln hd) = [] ∧
    aid ∈ (mark_context_safe (.cons (.call wid wl (.name "wrapper")
      (.cons (acqCall aid al hd) .nil) .nil) .nil) initState).safe_calls ∧
    analyzeReport path (withNestedProg aid al wid wl hd) = [] := by
  have hitems : visit_exprs (.cons (acqCall eid ln hd) .nil) (addSafe eid initState) =
      addSafe eid initState := by
    rw [show visit_exprs (.cons (acqCall eid ln hd) .nil) (addSafe eid initState) =
      visit_expr (acqCall eid ln hd) (addSafe eid initState) from rfl]
    exact visit_expr_acq_skip eid ln aliasesEmpty_init hk (Or.inl (by simp [addSafe]))
  have hsigW : call_signature initState.scope_stack
      (.call wid wl (.name "wrapper") (.cons (acqCall aid al hd) .nil) .nil) =
      some (none, "wrapper") :=
    call_signature_bare aliasesEmpty_init wid wl "wrapper" _ _
  have hmcs : mark_context_safe (.cons (.call wid wl (.name "wrapper")
      (.cons (acqCall aid al hd) .nil) .nil) .nil) initState = addSafe aid initState := by
    unfold mark_context_safe
    rw [show mark_safe_calls_list (.cons (.call wid wl (.name "wrapper")
        (.cons (acqCall aid al hd) .nil) .nil) .nil) initState =
      mark_safe_calls (.call wid wl (.name "wrapper")
        (.cons (acqCall aid al hd) .nil) .nil) initState from rfl]
    simp only [mark_safe_calls]
    rw [hsigW]
    rw [show ((some ((none : Option String), "wrapper")).bind targetKind) = none from rfl]
    show mark_safe_calls_list .nil
      (mark_safe_calls_list (.cons (acqCall aid al hd) .nil) initState) = _
    rw [show mark_safe_calls_list (.cons (acqCall aid al hd) .nil) initState =
      mark_safe_calls (acqCall aid al hd) initState from rfl]
    rw [mark_safe_calls_acq aid al aliasesEmpty_init hk]
    rfl
  refine ⟨?_, ?_, ?_, ?_, ?_⟩
  · rw [mark_context_safe_acq eid ln aliasesEmpty_init hk]
    simp [addSafe]
  · unfold analyzeReport analyzeState withAcqProg
    rw [show visit_stmts (if false then
        .cons (.asyncWith (.cons (acqCall eid ln hd) .nil) .nil) .nil
      else .cons (.withStmt (.cons (acqCall eid ln hd) .nil) .nil) .nil) initState =
      visit_stmts .nil (visit_exprs (.cons (acqCall eid ln hd) .nil)
        (mark_context_safe (.cons (acqCall eid ln hd) .nil) initState)) from rfl]
    rw [mark_context_safe_acq eid ln aliasesEmpty_init hk, hitems]
    rfl
  · unfold analyzeReport analyzeState withAcqProg
    rw [show visit_stmts (if true then
        .cons (.asyncWith (.cons (acqCall eid ln hd) .nil) .nil) .nil
      else .cons (.withStmt (.cons (acqCall eid ln hd) .nil) .nil) .nil) initState =
      visit_stmts .nil (visit_exprs (.cons (acqCall eid ln hd) .nil)
        (mark_context_safe (.cons (acqCall eid ln hd) .nil) initState)) from rfl]
    rw [mark_context_safe_acq eid ln aliasesEmpty_init hk, hitems]
    rfl
  · rw [hmcs]
    simp [addSafe]
  · unfold analyzeReport analyzeState withNestedProg
    rw [show visit_stmts (.cons (.withStmt
        (.cons (.call wid wl (.name "wrapper") (.cons (acqCall aid al hd) .nil) .nil) .nil)
        .nil) .nil) initState =
      visit_stmts .nil (visit_exprs
        (.cons (.call wid wl (.name "wrapper") (.cons (acqCall aid al hd) .nil) .nil) .nil)
        (mark_context_safe
          (.cons (.call wid wl (.name "wrapper") (.cons (acqCall aid al hd) .nil) .nil) .nil)
          initState)) from rfl]
    rw [hmcs]
    rw [show visit_exprs
        (.cons (.call wid wl (.name "wrapper") (.cons (acqCall aid al hd) .nil) .nil) .nil)
        (addSafe aid initState) =
      visit_expr (.call wid wl (.name "wrapper") (.cons (acqCall aid al hd) .nil) .nil)
        (addSafe aid initState) from rfl]
    simp only [visit_expr]
    rw [visit_call_record_skip wid wl (Or.inr (Or.inr (by
      rw [show call_signature (addSafe aid initState).scope_stack
          (.call wid wl (.name "wrapper") (.cons (acqCall aid al hd) .nil) .nil) =
        some (none, "wrapper") from hsigW]
      rfl)))]
    rw [show handle_release
        (.call wid wl (.name "wrapper") (.cons (acqCall aid al hd) .nil) .nil)
        (addSafe aid initState) = addSafe aid initState from by
      unfold handle_release
      rw [show handle_release_attr
          (.call wid wl (.name "wrapper") (.cons (acqCall aid al hd) .nil) .nil)
          (addSafe aid initState) = addSafe aid initState from rfl]
      exact handle_release_task_not_task wid wl _ _ _ hsigW (by decide)]
    rw [show visit_exprs (.cons (acqCall aid al hd) .nil) (addSafe aid initState) =
      visit_expr (acqCall aid al hd) (addSafe aid initState) from rfl]
    rw [visit_expr_acq_skip aid al
      (show aliasesEmpty (addSafe aid initState).scope_stack from aliasesEmpty_init) hk
      (Or.inl (by simp [addSafe]))]
    rfl

theorem claim_C4_witness :
    targetKind (AcqHead.bare "open").sig = some RKind.file_handle ∧
    analyzeReport "w.py" (withAcqProg false 1 1 (.bare "open")) = [] :=
  ⟨by decide, (claim_C4 "w.py" (.bare "open") RKind.file_handle 1 1 2 1 3 1 (by decide)).2.1⟩

/-- C5: `acquire(...).method(...)` with a release method of the
acquisition's kind marks the nested acquisition call safe directly: the
run yields zero diagnostics, the inner call id lands in `safe_calls`, no
record is ever created, and no name table is touched. -/
theorem claim_C5 (path : String) (oid oln aid aln : Nat) (hd : AcqHead) (k : RKind)
    (rel : String) (hk : targetKind hd.sig = some k) (hrel : rel ∈ RELEASE_METHODS k) :
    analyzeReport path (chainProg oid oln aid aln hd rel) = [] ∧
    aid ∈ (analyzeState (chainProg oid oln aid aln hd rel)).safe_calls ∧
    (analyzeState (chainProg oid oln aid aln hd rel)).records = [] ∧
    (∀ sc ∈ (analyzeState (chainProg oid oln aid aln hd rel)).scope_stack,
      sc.by_name = []) := by
  have hrun : analyzeState (chainProg oid oln aid aln hd rel) = addSafe aid initState := by
    unfold analyzeState chainProg
    rw [show visit_stmts (.cons (.exprStmt (chainExpr oid oln aid aln hd rel)) .nil)
      initState = visit_expr (chainExpr oid oln aid aln hd rel) initState from rfl]
    exact visit_expr_chain oid oln aid aln rel aliasesEmpty_init hk hrel
  refine ⟨?_, ?_, ?_, ?_⟩
  · unfold analyzeReport
    rw [hrun]
    rfl
  · rw [hrun]
    simp [addSafe]
  · rw [hrun]
    rfl
  · rw [hrun]
    intro sc hsc
    have : sc = ⟨[], []⟩ := by simpa [addSafe, initState] using hsc
    rw [this]

theorem claim_C5_witness :
    targetKind (AcqHead.dotted "subprocess" "Popen").sig = some RKind.popen_handle ∧
    ("wait" : String) ∈ RELEASE_METHODS RKind.popen_handle ∧
    analyzeReport "w.py" (chainProg 2 1 1 1 (.dotted "subprocess" "Popen") "wait") = [] :=
  ⟨by decide, by decide,
    (claim_C5 "w.py" 2 1 1 1 (.dotted "subprocess" "Popen") RKind.popen_handle "wait"
      (by decide) (by decide)).1⟩

/-- C6: an acquisition bound in the module scope and released by a
matching release-method call inside a nested function body yields zero
diagnostics: the release search walks the scope stack outward from the
innermost (fresh, empty) scope to the enclosing one holding the record. -/
theorem claim_C6 (path : String) (aid aln rid rln : Nat) (x : String) (hd : AcqHead)
    (k : RKind) (rel : String) (hx : x ≠ "") (hk : targetKind hd.sig = some k)
    (hfind : kindOrder.find? (fun kd => rel ∈ RELEASE_METHODS kd) = some k) :
    analyzeReport path (crossScopeProg aid aln rid rln x hd rel) = [] := by
  unfold analyzeReport analyzeState crossScopeProg
  rw [show visit_stmts (.cons (.assign (.cons (.name x) .nil) (acqCall aid aln hd))
      (.cons (.functionDef "inner" (.cons (.exprStmt (releaseExpr rid rln x rel)) .nil))
        .nil)) initState =
    visit_stmt (.functionDef "inner" (.cons (.exprStmt (releaseExpr rid rln x rel)) .nil))
      (visit_stmt (.assign (.cons (.name x) .nil) (acqCall aid aln hd)) initState)
    from rfl]
  rw [visit_stmt_assign_acq aid aln x aliasesEmpty_init hk]
  rw [show ({ initState with assigned_calls := aid :: initState.assigned_calls } : Analyzer) =
    ⟨[], [], [aid], [⟨[], []⟩]⟩ from rfl]
  rw [add_record_cons hx k aln [] [] [aid] ⟨[], []⟩ []]
  simp only [visit_stmt]
  rw [show visit_stmts (.cons (.exprStmt (releaseExpr rid rln x rel)) .nil)
      (pushScope ⟨[] ++ [⟨some x, k, aln, false⟩], [], [aid],
        (Scope.appendRecord ⟨[], []⟩ x ([] : List ResourceRecord).length) :: []⟩) =
    visit_expr (releaseExpr rid rln x rel)
      (pushScope ⟨[] ++ [⟨some x, k, aln, false⟩], [], [aid],
        (Scope.appendRecord ⟨[], []⟩ x ([] : List ResourceRecord).length) :: []⟩)
    from rfl]
  rw [show pushScope ⟨[] ++ [⟨some x, k, aln, false⟩], [], [aid],
      (Scope.appendRecord ⟨[], []⟩ x ([] : List ResourceRecord).length) :: []⟩ =
    ⟨[] ++ [⟨some x, k, aln, false⟩], [], [aid],
      Scope.mk [] [] :: (Scope.appendRecord ⟨[], []⟩ x ([] : List ResourceRecord).length) :: []⟩
    from rfl]
  have halP : aliasesEmpty
      (Scope.mk [] [] :: (Scope.appendRecord ⟨[], []⟩ x
        ([] : List ResourceRecord).length) :: []) := by
    intro s hs
    rcases List.mem_cons.mp hs with rfl | hs1
    · rfl
    · rcases List.mem_singleton.mp hs1 with rfl
      rfl
  rw [visit_expr_release rid rln x rel halP hfind]
  rw [mark_released_append_fresh hx k aln [] [] [aid] ⟨[], []⟩ []]
  exact report_eq_nil (by
    intro r hr
    have hr' : r ∈ ([] ++ [(⟨some x, k, aln, true⟩ : ResourceRecord)]) := hr
    rcases (by simpa using hr' : r = ⟨some x, k, aln, true⟩) with rfl
    rfl)

theorem claim_C6_witness :
    ("f" : String) ≠ "" ∧
    targetKind (AcqHead.bare "open").sig = some RKind.file_handle ∧
    kindOrder.find? (fun kd => "close" ∈ RELEASE_METHODS kd) = some RKind.file_handle ∧
    analyzeReport "w.py" (crossScopeProg 1 1 2 3 "f" (.bare "open") "close") = [] :=
  ⟨by decide, by decide, by decide,
    claim_C6 "w.py" 1 1 2 3 "f" (.bare "open") RKind.file_handle "close"
      (by decide) (by decide) (by decide)⟩

/-- C7: a cooperative task passed to `asyncio.gather` — as a bare name, a
fresh `create_task` call, a starred expression, or nested in a
tuple/list/set literal, positionally or as a keyword value — is marked
released (named task) or safe (fresh call) and yields zero diagnostics. -/
theorem claim_C7 :
    analyzeReport "t.py" (gatherProg (.cons (.name "t") .nil) .nil) = [] ∧
    analyzeReport "t.py" freshGatherProg = [] ∧
    (1 : Nat) ∈ (analyzeState freshGatherProg).safe_calls ∧
    analyzeReport "t.py"
      (gatherProg (.cons (.starred (.listE (.cons (.name "t") .nil))) .nil) .nil) = [] ∧
    analyzeReport "t.py" (gatherProg (.cons (.tuple (.cons (.name "t") .nil)) .nil) .nil) = [] ∧
    analyzeReport "t.py" (gatherProg (.cons (.setE (.cons (.name "t") .nil)) .nil) .nil) = [] ∧
    analyzeReport "t.py" (gatherProg (.cons (.listE (.cons (.name "t") .nil)) .nil) .nil) = [] ∧
    analyzeReport "t.py" (gatherProg .nil (.cons (.listE (.cons (.name "t") .nil)) .nil)) = [] :=
  ⟨by decide, by decide, by decide, by decide, by decide, by decide, by decide, by decide⟩

/-- C8, code bug: `analyze` recovers a read failure (`OSError`) and a
parse failure (`SyntaxError`) locally — empty findings plus one warning
on the separate channel, as the claim says — but a source whose bytes do
not decode as UTF-8 raises `UnicodeDecodeError`, which is a `ValueError`
and matches neither `except` clause: the exception escapes `analyze`,
`main`'s batch loop aborts before printing, and even the findings of the
other files are lost, contradicting the claim's no-crash conjunct (and
the spec's "every failure mode degrades to fewer findings for this file,
never to a crash"). -/
theorem claim_C8 :
    analyzeFile "a.py" (.unreadable "No such file") =
      .ok ⟨[], ["WARN: Could not read a.py: No such file"]⟩ ∧
    analyzeFile "a.py" (.unparseable "invalid syntax") =
      .ok ⟨[], ["WARN: Syntax error in a.py: invalid syntax"]⟩ ∧
    analyzeFile "bad.py" (.undecodable "invalid start byte") =
      .error "UnicodeDecodeError: invalid start byte" ∧
    analyzeBatch [("good.py", .parsed (bareAcqProg 1 1 (.bare "open")))] =
      .ok ⟨["good.py:1\tfile_handle\tFile handle file_handle opened without context manager or close()"],
        []⟩ ∧
    analyzeBatch [("good.py", .parsed (bareAcqProg 1 1 (.bare "open"))),
        ("bad.py", .undecodable "invalid start byte")] =
      .error "UnicodeDecodeError: invalid start byte" :=
  ⟨rfl, rfl, rfl, rfl, rfl⟩

/-- C9: visiting any statement list preserves the scope-stack depth and
every enclosing scope; the stack never becomes empty; a function
definition restores the stack exactly (inner bindings and records never
leak outward); and a full traversal from the initial state ends with
exactly the root scope. -/
theorem claim_C9 :
    (∀ (b : PStmtList) (st : Analyzer),
      (visit_stmts b st).scope_stack.length = st.scope_stack.length ∧
        (visit_stmts b st).scope_stack.tail = st.scope_stack.tail) ∧
    (∀ (b : PStmtList) (st : Analyzer), st.scope_stack ≠ [] →
      (visit_stmts b st).scope_stack ≠ []) ∧
    (∀ (nm : String) (body : PStmtList) (st : Analyzer),
      (visit_stmt (.functionDef nm body) st).scope_stack = st.scope_stack ∧
        (visit_stmt (.asyncFunctionDef nm body) st).scope_stack = st.scope_stack) ∧
    (∀ b : PStmtList, (analyzeState b).scope_stack.length = 1) := by
  refine ⟨fun b st => visit_stmts_scopesTail b st, ?_, ?_, ?_⟩
  · intro b st hne hcon
    have h1 := (visit_stmts_scopesTail b st).1
    rw [hcon] at h1
    exact hne (List.length_eq_zero.mp h1.symm)
  · intro nm body st
    exact ⟨visit_functionDef_scopes nm body st, visit_asyncFunctionDef_scopes nm body st⟩
  · intro b
    exact (visit_stmts_scopesTail b initState).1

theorem claim_C9_witness :
    (analyzeState (bareAcqProg 1 1 (.bare "open"))).scope_stack.length = 1 :=
  claim_C9.2.2.2 (bareAcqProg 1 1 (.bare "open"))

/-- C10: `close` in a release call on a bound name is attributed to
`file_handle` only: the scan of the fixed kind order stops there, so
`_handle_release` of `name.close()` never changes a `socket_handle`
record; concretely, `s = socket.socket(); s.close()` still reports the
socket, while `s.shutdown()` releases it. -/
theorem claim_C10 (cid cl : Nat) (n : String) (st : Analyzer) (i : Nat)
    (r : ResourceRecord) (hr : st.records.get? i = some r)
    (hk : r.kind = .socket_handle) :
    kindOrder.find? (fun kd => "close" ∈ RELEASE_METHODS kd) = some .file_handle ∧
    (handle_release (.call cid cl (.attributeE (.name n) "close") .nil .nil) st).records.get? i
      = some r ∧
    analyzeReport "t.py" progSockClose =
      ["t.py:1\tsocket_handle\tSocket s opened without close()"] ∧
    analyzeReport "t.py" progSockShutdown = [] := by
  refine ⟨by decide, ?_, by decide, by decide⟩
  unfold handle_release
  rw [show handle_release_attr (.call cid cl (.attributeE (.name n) "close") .nil .nil) st =
      mark_released (some n) (some .file_handle) st from by
    unfold handle_release_attr
    dsimp only
    rw [show kindOrder.find? (fun k => "close" ∈ RELEASE_METHODS k) =
      some RKind.file_handle from rfl]
    rfl]
  rw [handle_release_task_nil cid cl _ _]
  unfold mark_released
  split
  · rcases hfr : findRelease st.records (some .file_handle) st.scope_stack
      ((some n).getD "") with _ | j
    · exact hr
    · have hm := findRelease_matches hfr
      have hne : i ≠ j := by
        intro he
        rw [← he] at hm
        unfold recMatches at hm
        rw [hr] at hm
        simp only [Bool.and_eq_true, decide_eq_true_eq] at hm
        exact RKind.noConfusion (hk.symm.trans hm.2)
      show (setReleasedAt st.records j).get? i = some r
      rw [setReleasedAt_get?_ne st.records j i hne]
      exact hr
  · exact hr

theorem claim_C10_witness :
    (⟨[⟨some "s", RKind.socket_handle, 1, false⟩], [], [], [⟨[], []⟩]⟩ :
        Analyzer).records.get? 0 = some ⟨some "s", RKind.socket_handle, 1, false⟩ ∧
    (⟨some "s", RKind.socket_handle, 1, false⟩ : ResourceRecord).kind = .socket_handle ∧
    (handle_release (.call 9 2 (.attributeE (.name "s") "close") .nil .nil)
      ⟨[⟨some "s", RKind.socket_handle, 1, false⟩], [], [], [⟨[], []⟩]⟩).records.get? 0 =
      some ⟨some "s", RKind.socket_handle, 1, false⟩ :=
  ⟨rfl, rfl,
    (claim_C10 9 2 "s" ⟨[⟨some "s", RKind.socket_handle, 1, false⟩], [], [], [⟨[], []⟩]⟩ 0
      ⟨some "s", RKind.socket_handle, 1, false⟩ rfl rfl).2.1⟩

end ResourceLifecycle
